import Mathlib

/-!
# MD-Bench force kernels: a shallow embedding

Exact-arithmetic model (`ℚ` for `MD_FLOAT`) of

* `computeForceLJFullNeigh_simd` (`src/verletlist/force_lj-x86.c`),
* `computeForceEam` (`src/verletlist/force_eam.c`),

and of the calls made by `setup`, `reneighbour` and `main` (`src/clusterpair/main.c`).

Arrays are total maps from the index to the stored value, the loop counters and
particle indices of the kernels are natural numbers, spline-table indices are integers
(they are the result of a `double → int` conversion, which delivers `INT_MIN` outside
the range of `int`, and may be negative).  The `int` parameters of the driver are
integers; their remainder is the truncated one of C and a zero divisor stops the run.
OpenMP `parallel for` loops are executed in index order.
-/

namespace MDBench

/-! ## Build switches and records -/

/-- Preprocessor switches that select the code paths of the two kernels. -/
structure Build where
  /-- `#ifdef AOS`: positions are stored as `x[3*i + d]`. -/
  AOS : Bool
  /-- `#ifdef ONE_ATOM_TYPE`: no per-type tables. -/
  ONE_ATOM_TYPE : Bool
  /-- `#ifdef COMPUTE_STATS`: `addStat` is active. -/
  COMPUTE_STATS : Bool
  /-- `VECTOR_WIDTH`: number of lanes of a SIMD register. -/
  VECTOR_WIDTH : Nat

/-- Fields of `Parameter` read by the kernels. -/
structure Parameter where
  cutforce : ℚ
  sigma6 : ℚ
  epsilon : ℚ

/-- Fields of `Atom` read or written by the kernels (`atom.h`). -/
structure Atom where
  Nlocal : Nat
  Nghost : Nat
  Nmax : Nat
  x : Nat → ℚ
  y : Nat → ℚ
  z : Nat → ℚ
  fx : Nat → ℚ
  fy : Nat → ℚ
  fz : Nat → ℚ
  border_map : Nat → Nat
  type : Nat → Int
  ntypes : Int
  cutforcesq : Int → ℚ

/-- Fields of `Neighbor`: a flat buffer with `maxneighs` slots per particle. -/
structure Neighbor where
  maxneighs : Nat
  numneigh : Nat → Nat
  neighbors : Nat → Nat

/-- Counters of `Stats` touched by the kernels. -/
structure Stats where
  total_force_neighs : Nat
  total_force_iters : Nat

/-- The global `eam` record. -/
structure Eam where
  nmax : Nat
  fp : Nat → ℚ
  rhor_spline : Int → ℚ
  frho_spline : Int → ℚ
  z2r_spline : Int → ℚ
  rdr : ℚ
  nr : Int
  nr_tot : Int
  rdrho : ℚ
  nrho : Int
  nrho_tot : Int

/-- Macro `atom_x(i)` of `atom.h`. -/
def atom_x (b : Build) (atom : Atom) (i : Nat) : ℚ :=
  if b.AOS then atom.x (i * 3 + 0) else atom.x i

/-- Macro `atom_y(i)` of `atom.h`. -/
def atom_y (b : Build) (atom : Atom) (i : Nat) : ℚ :=
  if b.AOS then atom.x (i * 3 + 1) else atom.y i

/-- Macro `atom_z(i)` of `atom.h`. -/
def atom_z (b : Build) (atom : Atom) (i : Nat) : ℚ :=
  if b.AOS then atom.x (i * 3 + 2) else atom.z i

/-! ## Loops -/

/-- The loop `for (k = 0; k < n; k++) body`, run in order. -/
def forUpTo {σ : Type} (body : Nat → σ → σ) : Nat → σ → σ
  | 0, s => s
  | n + 1, s => body n (forUpTo body n s)

/-- The loop `for (; k < n; k += W) body` from the current `k`.  The first
argument bounds the number of iterations; `none` means the bound was reached
with the guard still true (for `W = 0` the C loop does not terminate). -/
def strideLoop {σ : Type} (W n : Nat) (body : Nat → σ → σ) : Nat → Nat → σ → Option σ
  | 0, k, s => if k < n then none else some s
  | fuel + 1, k, s =>
    if k < n then strideLoop W n body fuel (k + W) (body k s) else some s

/-! ## SIMD wrappers (`simd.h`)

A register is the map from the lane number to the lane value; only lanes
`0 .. VECTOR_WIDTH - 1` are ever reduced. -/

/-- Register of `MD_FLOAT` lanes. -/
abbrev MD_SIMD_FLOAT := Nat → ℚ

/-- Register of 32-bit integer lanes. -/
abbrev MD_SIMD_INT := Nat → Nat

/-- Lane mask. -/
abbrev MD_SIMD_MASK := Nat → Bool

/-- Modelled from the spec: `simd.h` is not among the sources; broadcast of a scalar. -/
def simd_real_broadcast (v : ℚ) : MD_SIMD_FLOAT := fun _ => v

/-- Modelled from the spec: `simd.h` is not among the sources; the all-zero register. -/
def simd_real_zero : MD_SIMD_FLOAT := fun _ => 0

/-- Modelled from the spec: `simd.h` is not among the sources; integer broadcast. -/
def simd_i32_broadcast (v : Nat) : MD_SIMD_INT := fun _ => v

/-- Modelled from the spec: `simd.h` is not among the sources; lane numbers `0, 1, 2, ...`. -/
def simd_i32_seq : MD_SIMD_INT := fun l => l

/-- Modelled from the spec: `simd.h` is not among the sources; lane-wise integer sum. -/
def simd_i32_add (a c : MD_SIMD_INT) : MD_SIMD_INT := fun l => a l + c l

/-- Modelled from the spec: `simd.h` is not among the sources; lane-wise `a < c` on integers. -/
def simd_mask_i32_cond_lt (a c : MD_SIMD_INT) : MD_SIMD_MASK := fun l => decide (a l < c l)

/-- Modelled from the spec: `simd.h` is not among the sources; lane-wise `a < c` on reals. -/
def simd_mask_cond_lt (a c : MD_SIMD_FLOAT) : MD_SIMD_MASK := fun l => decide (a l < c l)

/-- Modelled from the spec: `simd.h` is not among the sources; lane-wise conjunction. -/
def simd_mask_and (m₁ m₂ : MD_SIMD_MASK) : MD_SIMD_MASK := fun l => m₁ l && m₂ l

/-- Modelled from the spec: `simd.h` is not among the sources; masked load from
consecutive memory, lanes that are masked off read nothing and hold `0`. -/
def simd_i32_mask_load (mem : Nat → Nat) (m : MD_SIMD_MASK) : MD_SIMD_INT :=
  fun l => if m l then mem l else 0

/-- Modelled from the spec: `simd.h` is not among the sources; gather
`base[idx[l]]` (the byte scale argument is the element size). -/
def simd_real_gather (idx : MD_SIMD_INT) (base : Nat → ℚ) : MD_SIMD_FLOAT :=
  fun l => base (idx l)

/-- Modelled from the spec: `simd.h` is not among the sources; lane-wise product. -/
def simd_real_mul (a c : MD_SIMD_FLOAT) : MD_SIMD_FLOAT := fun l => a l * c l

/-- Modelled from the spec: `simd.h` is not among the sources; lane-wise difference
(also the C operator `-` on registers). -/
def simd_real_sub (a c : MD_SIMD_FLOAT) : MD_SIMD_FLOAT := fun l => a l - c l

/-- Modelled from the spec: `simd.h` is not among the sources; fused `a * c + d`. -/
def simd_real_fma (a c d : MD_SIMD_FLOAT) : MD_SIMD_FLOAT := fun l => a l * c l + d l

/-- Modelled from the spec: `simd.h` is not among the sources; lane-wise `1 / a`. -/
def simd_real_reciprocal (a : MD_SIMD_FLOAT) : MD_SIMD_FLOAT := fun l => 1 / a l

/-- Modelled from the spec: `simd.h` is not among the sources; `a + c` in the lanes
selected by the mask, `a` elsewhere. -/
def simd_real_masked_add (a c : MD_SIMD_FLOAT) (m : MD_SIMD_MASK) : MD_SIMD_FLOAT :=
  fun l => if m l then a l + c l else a l

/-- Modelled from the spec: `simd.h` is not among the sources; horizontal sum of the
`W` lanes of a register. -/
def simd_real_h_reduce_sum (W : Nat) (a : MD_SIMD_FLOAT) : ℚ :=
  forUpTo (fun l s => s + a l) W 0

/-! ## `computeForceLJFullNeigh_simd` -/

/-- The three lane-wise accumulators `fix`, `fiy`, `fiz`. -/
structure LJAcc where
  fix : MD_SIMD_FLOAT
  fiy : MD_SIMD_FLOAT
  fiz : MD_SIMD_FLOAT

/-- Lines 92-98: the scalar that multiplies the separation vector, per lane. -/
def ljForceVec (sigma6_vec eps_vec rsq : MD_SIMD_FLOAT) : MD_SIMD_FLOAT :=
  let c48_vec := simd_real_broadcast 48
  let c05_vec := simd_real_broadcast (1 / 2)
  let sr2 := simd_real_reciprocal rsq
  let sr6 := simd_real_mul sr2 (simd_real_mul sr2 (simd_real_mul sr2 sigma6_vec))
  simd_real_mul c48_vec
    (simd_real_mul sr6 (simd_real_mul (simd_real_sub sr6 c05_vec) (simd_real_mul sr2 eps_vec)))

/-- The registers a chunk computes before it accumulates. -/
structure LJRegs where
  mask_numneighs : MD_SIMD_MASK
  j : MD_SIMD_INT
  delx : MD_SIMD_FLOAT
  dely : MD_SIMD_FLOAT
  delz : MD_SIMD_FLOAT
  rsq : MD_SIMD_FLOAT
  cutoff_mask : MD_SIMD_MASK
  force : MD_SIMD_FLOAT

/-- Lines 67-98: the registers of the chunk at offset `k` of owned particle `i`;
`neighs` is `&neighbor->neighbors[i * maxneighs]`. -/
def ljChunkRegs (b : Build) (param : Parameter) (atom : Atom) (neighs : Nat → Nat)
    (numneighs i k : Nat) : LJRegs :=
  let cutforcesq := param.cutforce * param.cutforce
  let cutforcesq_vec := simd_real_broadcast cutforcesq
  let sigma6_vec := simd_real_broadcast param.sigma6
  let eps_vec := simd_real_broadcast param.epsilon
  let numneighs_vec := simd_i32_broadcast numneighs
  let xtmp := simd_real_broadcast (atom_x b atom i)
  let ytmp := simd_real_broadcast (atom_y b atom i)
  let ztmp := simd_real_broadcast (atom_z b atom i)
  let mask_numneighs :=
    simd_mask_i32_cond_lt (simd_i32_add (simd_i32_broadcast k) simd_i32_seq) numneighs_vec
  let j := simd_i32_mask_load (fun l => neighs (k + l)) mask_numneighs
  let j3 := simd_i32_add (simd_i32_add j j) j
  let delx := simd_real_sub xtmp
    (if b.AOS then simd_real_gather j3 (fun n => atom.x (0 + n)) else simd_real_gather j atom.x)
  let dely := simd_real_sub ytmp
    (if b.AOS then simd_real_gather j3 (fun n => atom.x (1 + n)) else simd_real_gather j atom.y)
  let delz := simd_real_sub ztmp
    (if b.AOS then simd_real_gather j3 (fun n => atom.x (2 + n)) else simd_real_gather j atom.z)
  let rsq := simd_real_fma delx delx (simd_real_fma dely dely (simd_real_mul delz delz))
  let cutoff_mask := simd_mask_and mask_numneighs (simd_mask_cond_lt rsq cutforcesq_vec)
  let force := ljForceVec sigma6_vec eps_vec rsq
  { mask_numneighs := mask_numneighs, j := j, delx := delx, dely := dely, delz := delz,
    rsq := rsq, cutoff_mask := cutoff_mask, force := force }

/-- Lines 64-103: the body of the chunk loop for owned particle `i` at offset `k`:
the registers of the chunk, then the three masked accumulations of lines 100-102. -/
def ljChunk (b : Build) (param : Parameter) (atom : Atom) (neighs : Nat → Nat)
    (numneighs i k : Nat) (acc : LJAcc) : LJAcc :=
  let r := ljChunkRegs b param atom neighs numneighs i k
  { fix := simd_real_masked_add acc.fix (simd_real_mul r.delx r.force) r.cutoff_mask
    fiy := simd_real_masked_add acc.fiy (simd_real_mul r.dely r.force) r.cutoff_mask
    fiz := simd_real_masked_add acc.fiz (simd_real_mul r.delz r.force) r.cutoff_mask }

/-- Lines 54-103: the lane accumulators of owned particle `i` after its chunk loop. -/
def ljLanes (b : Build) (param : Parameter) (atom : Atom) (neighbor : Neighbor)
    (fuel i : Nat) : Option LJAcc :=
  let neighs := fun p => neighbor.neighbors (i * neighbor.maxneighs + p)
  let numneighs := neighbor.numneigh i
  strideLoop b.VECTOR_WIDTH numneighs (ljChunk b param atom neighs numneighs i) fuel 0
    { fix := simd_real_zero, fiy := simd_real_zero, fiz := simd_real_zero }

/-- Lines 30-34: the loop that clears the forces of the owned particles. -/
def ljZeroForces (atom : Atom) : Atom :=
  forUpTo (fun i a =>
    { a with fx := Function.update a.fx i 0
             fy := Function.update a.fy i 0
             fz := Function.update a.fz i 0 }) atom.Nlocal atom

/-- Lines 53-108: iterations `0 .. n - 1` of the loop over the owned particles. -/
def ljForceLoop (b : Build) (param : Parameter) (neighbor : Neighbor) (fuel : Nat) :
    Nat → Atom → Option Atom
  | 0, atom => some atom
  | n + 1, atom =>
    match ljForceLoop b param neighbor fuel n atom with
    | none => none
    | some a =>
      match ljLanes b param a neighbor fuel n with
      | none => none
      | some acc =>
        some { a with
          fx := Function.update a.fx n (a.fx n + simd_real_h_reduce_sum b.VECTOR_WIDTH acc.fix)
          fy := Function.update a.fy n (a.fy n + simd_real_h_reduce_sum b.VECTOR_WIDTH acc.fiy)
          fz := Function.update a.fz n (a.fz n + simd_real_h_reduce_sum b.VECTOR_WIDTH acc.fiz) }

/-- The kernel `computeForceLJFullNeigh_simd` built with `__SIMD_KERNEL__`; the
result is the particle store after the call (the returned wall-clock time is
not modelled).  `fuel` bounds the iterations of every chunk loop. -/
def computeForceLJFullNeigh_simd (b : Build) (param : Parameter) (atom : Atom)
    (neighbor : Neighbor) (fuel : Nat) : Option Atom :=
  ljForceLoop b param neighbor fuel atom.Nlocal (ljZeroForces atom)

/-- The scalar loop the specification compares the vector kernel with: for
owned particle `i`, the sum over the list positions `k < numneigh[i]` with
`rsq < cutforcesq` of `del * 48 * sr6 * (sr6 - 0.5) * sr2 * epsilon`, where
`sr2 = 1 / rsq` and `sr6 = sr2 ^ 3 * sigma6`. -/
def ljScalarLoop (b : Build) (param : Parameter) (atom : Atom) (neighbor : Neighbor)
    (i : Nat) : ℚ × ℚ × ℚ :=
  forUpTo (fun k f =>
    let j := neighbor.neighbors (i * neighbor.maxneighs + k)
    let delx := atom_x b atom i - atom_x b atom j
    let dely := atom_y b atom i - atom_y b atom j
    let delz := atom_z b atom i - atom_z b atom j
    let rsq := delx * delx + dely * dely + delz * delz
    if rsq < param.cutforce * param.cutforce then
      let sr2 := 1 / rsq
      let sr6 := sr2 ^ 3 * param.sigma6
      let force := 48 * sr6 * (sr6 - 1 / 2) * sr2 * param.epsilon
      (f.1 + delx * force, f.2.1 + dely * force, f.2.2 + delz * force)
    else f) (neighbor.numneigh i) (0, 0, 0)

/-- Contribution of list position `k` of owned particle `i` to the scalar loop:
the pair force when `rsq < cutforcesq`, zero otherwise. -/
def ljPairTerm (b : Build) (param : Parameter) (atom : Atom) (neighbor : Neighbor)
    (i k : Nat) : ℚ × ℚ × ℚ :=
  let j := neighbor.neighbors (i * neighbor.maxneighs + k)
  let delx := atom_x b atom i - atom_x b atom j
  let dely := atom_y b atom i - atom_y b atom j
  let delz := atom_z b atom i - atom_z b atom j
  let rsq := delx * delx + dely * dely + delz * delz
  if rsq < param.cutforce * param.cutforce then
    let sr2 := 1 / rsq
    let sr6 := sr2 ^ 3 * param.sigma6
    let force := 48 * sr6 * (sr6 - 1 / 2) * sr2 * param.epsilon
    (delx * force, dely * force, delz * force)
  else (0, 0, 0)

/-! ## `computeForceEam` -/

/-- The smallest value of a 32-bit `int`. -/
def INT_MIN : Int := -2147483648

/-- The largest value of a 32-bit `int`. -/
def INT_MAX : Int := 2147483647

/-- The C conversion `(int)(p)` of a real to a 32-bit `int`: truncation toward zero
when the truncated value is in `INT_MIN .. INT_MAX`.  Outside that range C leaves the
conversion undefined; the value taken here is the one the x86 conversion instruction
delivers, `INT_MIN`. -/
def cTruncInt (p : ℚ) : Int :=
  let t : Int := if 0 ≤ p then ⌊p⌋ else -⌊-p⌋
  if INT_MIN ≤ t ∧ t ≤ INT_MAX then t else INT_MIN

/-- Modelled from the spec: macro `MIN` of `util.h`, which is not among the sources;
the smaller argument (the upper clamp of the spec). -/
def MIN {α : Type} [LT α] [DecidableRel (fun (u v : α) => u < v)] (u v : α) : α :=
  if u < v then u else v

/-- Modelled from the spec: macro `MAX` of `util.h`, which is not among the sources;
the larger argument (the lower clamp of the spec). -/
def MAX {α : Type} [LT α] [DecidableRel (fun (u v : α) => u < v)] (u v : α) : α :=
  if v < u then u else v

/-- Modelled from the spec: macro `addStat` of `stats.h`, which is not among the
sources; adds to the counter when statistics are compiled in. -/
def addStat (b : Build) (stat value : Nat) : Nat :=
  if b.COMPUTE_STATS then stat + value else stat

/-- Lines 74-78 and 157-161: table index `m` and fraction `p` of the pair splines
(`rhor_spline`, `z2r_spline`) at separation `r`. -/
def pairSplineIndex (eam : Eam) (r : ℚ) : Int × ℚ :=
  let p := r * eam.rdr + 1
  let m := cTruncInt p
  let m := if m < eam.nr - 1 then m else eam.nr - 1
  let p := p - m
  let p := if p < 1 then p else 1
  (m, p)

/-- Lines 98-102: table index `m` and fraction `p` of the embedding spline
(`frho_spline`) at density `rhoi`. -/
def embedSplineIndex (eam : Eam) (rhoi : ℚ) : Int × ℚ :=
  let p := 1 * rhoi * eam.rdrho + 1
  let m := cTruncInt p
  let m := MAX 1 (MIN m (eam.nrho - 1))
  let p := p - m
  let p := MIN p 1
  (m, p)

/-- Lines 66-72 and 147-153: the squared cutoff of the pair `(i, j)`. -/
def eamCutforcesq (b : Build) (param : Parameter) (atom : Atom) (i j : Nat) : ℚ :=
  if b.ONE_ATOM_TYPE then param.cutforce * param.cutforce
  else atom.cutforcesq (atom.type i * atom.ntypes + atom.type j)

/-- Offset of the block of the pair splines read for the pair `(i, j)`:
`type_ij * nr_tot`, and `0` with `ONE_ATOM_TYPE`. -/
def eamPairBase (b : Build) (atom : Atom) (eam : Eam) (i j : Nat) : Int :=
  if b.ONE_ATOM_TYPE then 0 else (atom.type i * atom.ntypes + atom.type j) * eam.nr_tot

/-- Lines 95-97 and 103-111: offset of the block of `frho_spline` read for owned
particle `i`: `type_ii * nrho_tot` with `type_ii = type_i * type_i`, and `0` with
`ONE_ATOM_TYPE`. -/
def eamEmbedBase (b : Build) (atom : Atom) (eam : Eam) (i : Nat) : Int :=
  if b.ONE_ATOM_TYPE then 0 else (atom.type i * atom.type i) * eam.nrho_tot

/-- Lines 60-93: body of the density loop of owned particle `i` at list position `k`. -/
def eamDensityStep (b : Build) (param : Parameter) (atom : Atom) (neighbor : Neighbor)
    (eam : Eam) (sqrt : ℚ → ℚ) (i k : Nat) (rhoi : ℚ) : ℚ :=
  let j := neighbor.neighbors (i * neighbor.maxneighs + k)
  let delx := atom_x b atom i - atom_x b atom j
  let dely := atom_y b atom i - atom_y b atom j
  let delz := atom_z b atom i - atom_z b atom j
  let rsq := delx * delx + dely * dely + delz * delz
  if rsq < eamCutforcesq b param atom i j then
    let mp := pairSplineIndex eam (sqrt rsq)
    let m := mp.1
    let p := mp.2
    let o := eamPairBase b atom eam i j
    rhoi + (((eam.rhor_spline (o + m * 7 + 3) * p + eam.rhor_spline (o + m * 7 + 4)) * p +
      eam.rhor_spline (o + m * 7 + 5)) * p + eam.rhor_spline (o + m * 7 + 6))
  else rhoi

/-- Lines 55-93: the density `rhoi` of owned particle `i`. -/
def eamDensity (b : Build) (param : Parameter) (atom : Atom) (neighbor : Neighbor)
    (eam : Eam) (sqrt : ℚ → ℚ) (i : Nat) : ℚ :=
  forUpTo (eamDensityStep b param atom neighbor eam sqrt i) (neighbor.numneigh i) 0

/-- Lines 95-111: the value stored in `fp[i]` by pass 1. -/
def eamEmbed (b : Build) (param : Parameter) (atom : Atom) (neighbor : Neighbor)
    (eam : Eam) (sqrt : ℚ → ℚ) (i : Nat) : ℚ :=
  let rhoi := eamDensity b param atom neighbor eam sqrt i
  let mp := embedSplineIndex eam rhoi
  let m := mp.1
  let p := mp.2
  let o := eamEmbedBase b atom eam i
  (eam.frho_spline (o + m * 7 + 0) * p + eam.frho_spline (o + m * 7 + 1)) * p +
    eam.frho_spline (o + m * 7 + 2)

/-- Lines 49-112: pass 1, the loop over the owned particles that fills `fp`. -/
def eamPass1 (b : Build) (param : Parameter) (atom : Atom) (neighbor : Neighbor)
    (eam : Eam) (sqrt : ℚ → ℚ) (fp : Nat → ℚ) : Nat → ℚ :=
  forUpTo (fun i f => Function.update f i (eamEmbed b param atom neighbor eam sqrt i))
    atom.Nlocal fp

/-- Lines 117-120: `fp[Nlocal + i] = fp[border_map[i]]` for the ghosts, in order. -/
def eamCopyGhosts (atom : Atom) (fp : Nat → ℚ) : Nat → ℚ :=
  forUpTo (fun i f => Function.update f (atom.Nlocal + i) (f (atom.border_map i)))
    atom.Nghost fp

/-- Lines 155-209: the scalar `fpair` that multiplies the separation vector of the
pair `(i, j)` at separation `r`, given the embedding derivatives `fp`. -/
def eamFpair (b : Build) (atom : Atom) (eam : Eam) (fp : Nat → ℚ) (i j : Nat) (r : ℚ) : ℚ :=
  let mp := pairSplineIndex eam r
  let m := mp.1
  let p := mp.2
  let o := eamPairBase b atom eam i j
  let rhoip := (eam.rhor_spline (o + m * 7 + 0) * p + eam.rhor_spline (o + m * 7 + 1)) * p +
    eam.rhor_spline (o + m * 7 + 2)
  let z2p := (eam.z2r_spline (o + m * 7 + 0) * p + eam.z2r_spline (o + m * 7 + 1)) * p +
    eam.z2r_spline (o + m * 7 + 2)
  let z2 := ((eam.z2r_spline (o + m * 7 + 3) * p + eam.z2r_spline (o + m * 7 + 4)) * p +
    eam.z2r_spline (o + m * 7 + 5)) * p + eam.z2r_spline (o + m * 7 + 6)
  let recip := 1 / r
  let phi := z2 * recip
  let phip := z2p * recip - phi * recip
  let psip := fp i * rhoip + fp j * rhoip + phip
  let fpair := (-psip) * recip
  fpair

/-- Lines 141-216: body of the force loop of owned particle `i` at list position `k`;
the state is `(fix, fiy, fiz)`. -/
def eamForceStep (b : Build) (param : Parameter) (atom : Atom) (neighbor : Neighbor)
    (eam : Eam) (sqrt : ℚ → ℚ) (fp : Nat → ℚ) (i k : Nat) (f : ℚ × ℚ × ℚ) : ℚ × ℚ × ℚ :=
  let j := neighbor.neighbors (i * neighbor.maxneighs + k)
  let delx := atom_x b atom i - atom_x b atom j
  let dely := atom_y b atom i - atom_y b atom j
  let delz := atom_z b atom i - atom_z b atom j
  let rsq := delx * delx + dely * dely + delz * delz
  if rsq < eamCutforcesq b param atom i j then
    let r := sqrt rsq
    let fpair := eamFpair b atom eam fp i j r
    (f.1 + delx * fpair, f.2.1 + dely * fpair, f.2.2 + delz * fpair)
  else f

/-- Lines 133-216: the accumulators `(fix, fiy, fiz)` of owned particle `i` after
its neighbour loop; they start at zero. -/
def eamForceAcc (b : Build) (param : Parameter) (atom : Atom) (neighbor : Neighbor)
    (eam : Eam) (sqrt : ℚ → ℚ) (fp : Nat → ℚ) (i : Nat) : ℚ × ℚ × ℚ :=
  forUpTo (eamForceStep b param atom neighbor eam sqrt fp i) (neighbor.numneigh i) (0, 0, 0)

/-- Lines 127-224: pass 2, iterations `0 .. n - 1` of the loop over the owned
particles; each one overwrites the force slot of its particle and adds to the
counters. -/
def eamPass2 (b : Build) (param : Parameter) (neighbor : Neighbor) (eam : Eam)
    (sqrt : ℚ → ℚ) (fp : Nat → ℚ) (n : Nat) (st : Atom × Stats) : Atom × Stats :=
  forUpTo (fun i s =>
    let atom := s.1
    let stats := s.2
    let numneighs := neighbor.numneigh i
    let f := eamForceAcc b param atom neighbor eam sqrt fp i
    ({ atom with fx := Function.update atom.fx i f.1
                 fy := Function.update atom.fy i f.2.1
                 fz := Function.update atom.fz i f.2.2 },
     { total_force_neighs := addStat b stats.total_force_neighs numneighs
       total_force_iters := addStat b stats.total_force_iters
         ((numneighs + b.VECTOR_WIDTH - 1) / b.VECTOR_WIDTH) })) n st

/-- The kernel `computeForceEam`.  `sqrt` is the square root of `math.h`, `fresh`
the content of a newly allocated `fp` array; the result is the particle store,
the counters and the global `eam` record after the call (the returned
wall-clock time is not modelled). -/
def computeForceEam (b : Build) (param : Parameter) (atom : Atom) (neighbor : Neighbor)
    (stats : Stats) (eam : Eam) (sqrt : ℚ → ℚ) (fresh : Nat → ℚ) : Atom × Stats × Eam :=
  let eam := if eam.nmax < atom.Nmax then { eam with nmax := atom.Nmax, fp := fresh } else eam
  let fp := eamPass1 b param atom neighbor eam sqrt eam.fp
  let fp := eamCopyGhosts atom fp
  let r := eamPass2 b param neighbor eam sqrt fp atom.Nlocal (atom, stats)
  (r.1, r.2, { eam with fp := fp })

/-! ## The cluster-pair driver (`src/clusterpair/main.c`)

The driver is modelled by the sequence of the calls it makes.  Printing, the
timers and the LIKWID markers are left out; the command line is taken as already
parsed into the parameters. -/

/-- Preprocessor switches of the driver. -/
structure DriverBuild where
  /-- `#ifdef CUDA_TARGET`. -/
  CUDA_TARGET : Bool
  /-- `#if defined(MEM_TRACER) || defined(INDEX_TRACER)`. -/
  TRACER : Bool
  /-- `#ifdef COMPUTE_STATS`. -/
  STATS : Bool

/-- Fields of `Parameter` that steer the driver.  The file names are represented by
whether the pointer is non-`NULL`, `force_field_eam` by `force_field == FF_EAM`. -/
structure RunParam where
  force_field_eam : Bool
  input_file : Bool
  vtk_file : Bool
  xtc_file : Bool
  ntimes : Int
  reneigh_every : Int
  prune_every : Int
  nstat : Int
  x_out_every : Int
  v_out_every : Int

/-- The functions called by `setup`, `reneighbour` and `main`; the step number passed
to the output and thermo routines is kept. -/
inductive Call where
  | initParameter
  | initEam
  | initAtom
  | initForce
  | initPbc
  | initStats
  | initNeighbor
  | createAtom
  | readAtom
  | setupNeighbor
  | setupThermo
  | adjustThermo
  | buildClusters
  | defineJClusters
  | setupPbc
  | binClusters
  | buildNeighbor
  | initDevice
  | updateSingleAtoms
  | updateAtomsPbc
  | setup
  | reneighbour
  | printParameter
  | computeThermo (iter : Int)
  | traceAddresses
  | copyDataToCUDADevice
  | copyDataFromCUDADevice
  | computeForce
  | write_data_to_vtk_file (step : Nat)
  | xtc_init
  | xtc_write (step : Nat)
  | xtc_end
  | cudaDeviceFree
  | displayStatistics
  | initialIntegrate
  | pruneNeighbor
  | updatePbc
  | finalIntegrate
  deriving DecidableEq

/-- Lines 39-75: the calls made by `setup`, in order. -/
def setup (p : RunParam) : List Call :=
  (if p.force_field_eam then [Call.initEam] else []) ++
  [Call.initAtom, Call.initForce, Call.initPbc, Call.initStats, Call.initNeighbor] ++
  (if p.input_file then [Call.readAtom] else [Call.createAtom]) ++
  [Call.setupNeighbor, Call.setupThermo] ++
  (if p.input_file then [] else [Call.adjustThermo]) ++
  [Call.buildClusters, Call.defineJClusters, Call.setupPbc, Call.binClusters,
    Call.buildNeighbor, Call.initDevice]

/-- Lines 77-92: the calls made by `reneighbour`, in order. -/
def reneighbour : List Call :=
  [Call.updateSingleAtoms, Call.updateAtomsPbc, Call.buildClusters, Call.defineJClusters,
    Call.setupPbc, Call.binClusters, Call.buildNeighbor]

/-- How a run of the driver, or of one of its steps, ends: it completes after the
calls it made, or an integer division by zero stops the process after them. -/
inductive Outcome where
  | done (calls : List Call)
  | trapped (calls : List Call)
  deriving DecidableEq

/-- The calls made before the run completed or was stopped. -/
def Outcome.calls : Outcome → List Call
  | Outcome.done calls => calls
  | Outcome.trapped calls => calls

/-- Lines 248-289: iteration `n` of the time loop.  The counters are `int`; `%` is the
remainder of the division truncated toward zero, and a zero divisor stops the process
where the remainder is evaluated: `reneigh_every` at line 250, `prune_every` at line 251
(reached only when the step is not a rebuild), `nstat` at line 275 (the left operand of
`&&`), `x_out_every` and `v_out_every` at lines 279-280. -/
def timeStep (d : DriverBuild) (p : RunParam) (n : Nat) : Outcome :=
  let c₀ := [Call.initialIntegrate]
  if p.reneigh_every = 0 then Outcome.trapped c₀
  else if Int.tmod ((n : Int) + 1) p.reneigh_every ≠ 0 ∧ p.prune_every = 0 then
    Outcome.trapped c₀
  else
    let c₁ := c₀ ++
      (if Int.tmod ((n : Int) + 1) p.reneigh_every ≠ 0 then
        (if Int.tmod ((n : Int) + 1) p.prune_every = 0 then [Call.pruneNeighbor] else []) ++
          [Call.updatePbc]
      else
        (if d.CUDA_TARGET then [Call.copyDataFromCUDADevice] else []) ++ [Call.reneighbour] ++
        (if d.CUDA_TARGET then [Call.copyDataToCUDADevice] else [])) ++
      (if d.TRACER then [Call.traceAddresses] else []) ++
      [Call.computeForce, Call.finalIntegrate]
    if p.nstat = 0 then Outcome.trapped c₁
    else
      let c₂ := c₁ ++
        (if Int.tmod ((n : Int) + 1) p.nstat = 0 ∧ (n : Int) + 1 < p.ntimes then
          [Call.computeThermo ((n : Int) + 1)] else [])
      if p.x_out_every = 0 ∨ p.v_out_every = 0 then Outcome.trapped c₂
      else
        Outcome.done (c₂ ++
          (if Int.tmod ((n : Int) + 1) p.x_out_every = 0 ∨
              Int.tmod ((n : Int) + 1) p.v_out_every = 0 then
            (if p.vtk_file then [Call.write_data_to_vtk_file (n + 1)] else []) ++
            (if p.xtc_file then [Call.xtc_write (n + 1)] else [])
          else []))

/-- Lines 247-290: the first `m` iterations of the time loop
`for (n = 0; n < ntimes; n++)`; a step that is stopped ends the loop. -/
def timeLoop (d : DriverBuild) (p : RunParam) : Nat → Outcome
  | 0 => Outcome.done []
  | m + 1 =>
    match timeLoop d p m with
    | Outcome.trapped calls => Outcome.trapped calls
    | Outcome.done calls =>
      match timeStep d p m with
      | Outcome.trapped step => Outcome.trapped (calls ++ step)
      | Outcome.done step => Outcome.done (calls ++ step)

/-- Lines 219-358: the calls made by `main` once the command line is parsed.  The loop
runs `ntimes` iterations, none when `ntimes` is negative. -/
def main (d : DriverBuild) (p : RunParam) : Outcome :=
  let pre := [Call.initParameter, Call.setup, Call.printParameter, Call.computeThermo 0] ++
    (if d.TRACER then [Call.traceAddresses] else []) ++
    (if d.CUDA_TARGET then [Call.copyDataToCUDADevice] else []) ++
    [Call.computeForce] ++
    (if p.vtk_file then [Call.write_data_to_vtk_file 0] else []) ++
    (if p.xtc_file then [Call.xtc_init] else [])
  match timeLoop d p p.ntimes.toNat with
  | Outcome.trapped calls => Outcome.trapped (pre ++ calls)
  | Outcome.done calls =>
    Outcome.done (pre ++ calls ++
      (if d.CUDA_TARGET then [Call.copyDataFromCUDADevice] else []) ++
      [Call.updateSingleAtoms, Call.computeThermo (-1)] ++
      (if p.xtc_file then [Call.xtc_end] else []) ++
      (if d.CUDA_TARGET then [Call.cudaDeviceFree] else []) ++
      (if d.STATS then [Call.displayStatistics] else []))

/-- The calls the reneighbour schedule is about: the full rebuild, the prune, the
incremental ghost update and the force computation. -/
def isScheduleCall : Call → Bool
  | Call.reneighbour => true
  | Call.pruneNeighbor => true
  | Call.updatePbc => true
  | Call.computeForce => true
  | _ => false

/-- The steps of a reneighbor event: cluster building, ghost replication, binning and
the neighbour build. -/
def isBuildStep : Call → Bool
  | Call.buildClusters => true
  | Call.defineJClusters => true
  | Call.setupPbc => true
  | Call.binClusters => true
  | Call.buildNeighbor => true
  | _ => false

/-- Whether the first call is made before the second one in a sequence that makes both. -/
def calledBefore (c₁ c₂ : Call) (calls : List Call) : Bool :=
  decide (c₁ ∈ calls) && decide (c₂ ∈ calls) && decide (calls.indexOf c₁ < calls.indexOf c₂)

/-- A driver build without CUDA, tracer or statistics. -/
def exDriver : DriverBuild := { CUDA_TARGET := false, TRACER := false, STATS := false }

/-- Ten steps, rebuild every fourth, prune every second, generated lattice, no output. -/
def exRun : RunParam :=
  { force_field_eam := false, input_file := false, vtk_file := false, xtc_file := false
    ntimes := 10, reneigh_every := 4, prune_every := 2, nstat := 100
    x_out_every := 20, v_out_every := 5 }

/-- Three steps, rebuild on every step, with `nstat = 0`. -/
def exRunNoStat : RunParam :=
  { exRun with ntimes := 3, reneigh_every := 1, prune_every := 1, nstat := 0 }

/-! ## Definitions that follow the words of the specification -/

/-- The table index of the specification: `clamp(floor(x) + 1, lower, n - 1)`. -/
def specClampIndex (x : ℚ) (lower n : Int) : Int := max lower (min (⌊x⌋ + 1) (n - 1))

/-- The fraction of the specification: `x + 1 - m`, clamped above by `1.0`. -/
def specFraction (x : ℚ) (m : Int) : ℚ := min (x + 1 - m) 1

/-- Contribution of list position `k` of owned particle `i` to pass 2 of
`computeForceEam`: the separation vector times `fpair` when `rsq < cutforcesq`,
zero otherwise. -/
def eamPairTerm (b : Build) (param : Parameter) (atom : Atom) (neighbor : Neighbor)
    (eam : Eam) (sqrt : ℚ → ℚ) (fp : Nat → ℚ) (i k : Nat) : ℚ × ℚ × ℚ :=
  let j := neighbor.neighbors (i * neighbor.maxneighs + k)
  let delx := atom_x b atom i - atom_x b atom j
  let dely := atom_y b atom i - atom_y b atom j
  let delz := atom_z b atom i - atom_z b atom j
  let rsq := delx * delx + dely * dely + delz * delz
  if rsq < eamCutforcesq b param atom i j then
    (delx * eamFpair b atom eam fp i j (sqrt rsq), dely * eamFpair b atom eam fp i j (sqrt rsq),
      delz * eamFpair b atom eam fp i j (sqrt rsq))
  else (0, 0, 0)

/-- The embedding derivative in the words of the specification: interpolated in the
block of `frho_spline` of the diagonal entry `(t, t)` of the square type table, at
offset `(t * ntypes + t) * nrho_tot` with `t` the type of particle `i`. -/
def specEamEmbed (b : Build) (param : Parameter) (atom : Atom) (neighbor : Neighbor)
    (eam : Eam) (sqrt : ℚ → ℚ) (i : Nat) : ℚ :=
  let rhoi := eamDensity b param atom neighbor eam sqrt i
  let m := (embedSplineIndex eam rhoi).1
  let p := (embedSplineIndex eam rhoi).2
  let o := (atom.type i * atom.ntypes + atom.type i) * eam.nrho_tot
  (eam.frho_spline (o + m * 7 + 0) * p + eam.frho_spline (o + m * 7 + 1)) * p +
    eam.frho_spline (o + m * 7 + 2)

/-- The squared separation of the particles `a` and `j`, as both kernels compute it:
`delx * delx + dely * dely + delz * delz`. -/
def sqDist (b : Build) (atom : Atom) (a j : Nat) : ℚ :=
  (atom_x b atom a - atom_x b atom j) * (atom_x b atom a - atom_x b atom j) +
    (atom_y b atom a - atom_y b atom j) * (atom_y b atom a - atom_y b atom j) +
    (atom_z b atom a - atom_z b atom j) * (atom_z b atom a - atom_z b atom j)

/-- The contribution that `computeForceLJFullNeigh_simd` adds to the force on particle
`a` because of a listed particle `j`: the separation vector times the pair coefficient
when `rsq < cutforcesq`, zero otherwise. -/
def ljPairForce (b : Build) (param : Parameter) (atom : Atom) (a j : Nat) : ℚ × ℚ × ℚ :=
  let delx := atom_x b atom a - atom_x b atom j
  let dely := atom_y b atom a - atom_y b atom j
  let delz := atom_z b atom a - atom_z b atom j
  let rsq := delx * delx + dely * dely + delz * delz
  if rsq < param.cutforce * param.cutforce then
    let sr2 := 1 / rsq
    let sr6 := sr2 ^ 3 * param.sigma6
    let force := 48 * sr6 * (sr6 - 1 / 2) * sr2 * param.epsilon
    (delx * force, dely * force, delz * force)
  else (0, 0, 0)

/-- The contribution that pass 2 of `computeForceEam` adds to the force on particle `a`
because of a listed particle `j`. -/
def eamPairForce (b : Build) (param : Parameter) (atom : Atom) (eam : Eam) (sqrt : ℚ → ℚ)
    (fp : Nat → ℚ) (a j : Nat) : ℚ × ℚ × ℚ :=
  let delx := atom_x b atom a - atom_x b atom j
  let dely := atom_y b atom a - atom_y b atom j
  let delz := atom_z b atom a - atom_z b atom j
  let rsq := delx * delx + dely * dely + delz * delz
  if rsq < eamCutforcesq b param atom a j then
    (delx * eamFpair b atom eam fp a j (sqrt rsq), dely * eamFpair b atom eam fp a j (sqrt rsq),
      delz * eamFpair b atom eam fp a j (sqrt rsq))
  else (0, 0, 0)

/-- Particle `j` is in the neighbour list of particle `a`. -/
def listed (neighbor : Neighbor) (a j : Nat) : Prop :=
  ∃ k, k < neighbor.numneigh a ∧ neighbor.neighbors (a * neighbor.maxneighs + k) = j

instance listedDecidable (neighbor : Neighbor) (a j : Nat) : Decidable (listed neighbor a j) := by
  unfold listed
  infer_instance

/-- The cutoff and the pair-spline tables are symmetric in the types of the particles
`a` and `j`: the squared cutoffs of `(type_a, type_j)` and `(type_j, type_a)` agree, and
so do the coefficients of `rhor_spline` and `z2r_spline` in the bins `1 .. nr - 1` of the
two blocks. -/
def eamPairSymmetric (b : Build) (param : Parameter) (atom : Atom) (eam : Eam)
    (a j : Nat) : Prop :=
  eamCutforcesq b param atom a j = eamCutforcesq b param atom j a ∧
  ∀ m c : Int, 1 ≤ m → m ≤ eam.nr - 1 → 0 ≤ c → c ≤ 6 →
    eam.rhor_spline (eamPairBase b atom eam a j + m * 7 + c) =
      eam.rhor_spline (eamPairBase b atom eam j a + m * 7 + c) ∧
    eam.z2r_spline (eamPairBase b atom eam a j + m * 7 + c) =
      eam.z2r_spline (eamPairBase b atom eam j a + m * 7 + c)

/-- The number of iterations of `for (k = 0; k < n; k += W)`: the strided loop
run on a counter. -/
def strideLoopIters (W n fuel : Nat) : Option Nat :=
  strideLoop W n (fun _ c => c + 1) fuel 0 0

/-- Tables with ten bins of unit width; every coefficient is `1`. -/
def exEam : Eam :=
  { nmax := 0, fp := fun _ => 0
    rhor_spline := fun _ => 1, frho_spline := fun _ => 1, z2r_spline := fun _ => 1
    rdr := 1, nr := 10, nr_tot := 70, rdrho := 1, nrho := 10, nrho_tot := 70 }

/-- A two-bin table of spacing `2 ^ (-32)`: `exEam` with `nr = 2` and `rdr = 2 ^ 32`. -/
def exEamSteep : Eam := { exEam with nr := 2, rdr := 4294967296 }

/-- A square root that is exact at `4` and `16`, the squared separations of `exAtom`. -/
def exSqrt (q : ℚ) : ℚ := if q = 4 then 2 else if q = 16 then 4 else 0

/-- Counters that start at `10` and `20`. -/
def exStats : Stats := { total_force_neighs := 10, total_force_iters := 20 }

/-- A structure-of-arrays build with per-type tables. -/
def exBuild2 : Build :=
  { AOS := false, ONE_ATOM_TYPE := false, COMPUTE_STATS := true, VECTOR_WIDTH := 4 }

/-- Two owned particles of types `0` and `1` on the x axis at `0` and `1`, no ghost. -/
def exAtom2 : Atom :=
  { Nlocal := 2, Nghost := 0, Nmax := 2
    x := fun n => if n = 1 then 1 else 0
    y := fun _ => 0
    z := fun _ => 0
    fx := fun _ => 0
    fy := fun _ => 0
    fz := fun _ => 0
    border_map := fun _ => 0
    type := fun n => if n = 1 then 1 else 0
    ntypes := 2
    cutforcesq := fun _ => 25 / 4 }

/-- Each of the two particles lists the other one. -/
def exNeighbor2 : Neighbor :=
  { maxneighs := 4
    numneigh := fun n => if n < 2 then 1 else 0
    neighbors := fun n => if n = 0 then 1 else 0 }

/-- Two-type tables with ten bins of unit width (blocks of 70 entries).  The density
derivative at bin 2 is `1` in the block of the type pair `(0, 1)` (entry `86`) and `2`
in the block of `(1, 0)` (entry `156`); the embedding derivative at bin 1 is `1` in the
blocks read for both types (entries `9` and `79`); everything else is `0`. -/
def exEam2 : Eam :=
  { nmax := 2, fp := fun _ => 0
    rhor_spline := fun n => if n = 86 then 1 else if n = 156 then 2 else 0
    frho_spline := fun n => if n = 9 then 1 else if n = 79 then 1 else 0
    z2r_spline := fun _ => 0
    rdr := 1, nr := 10, nr_tot := 70, rdrho := 1, nrho := 10, nrho_tot := 70 }

/-- A square root that is exact at `1`, the squared separation of `exAtom2`. -/
def exSqrt2 (q : ℚ) : ℚ := if q = 1 then 1 else 0

/-- Counter after `n` calls of `addStat`. -/
def statAfter (b : Build) (start : Nat) (inc : Nat → Nat) (n : Nat) : Nat :=
  if b.COMPUTE_STATS then start + ∑ i in Finset.range n, inc i else start

/-! ## Concrete inputs -/

/-- A four-lane structure-of-arrays build with one atom type and statistics. -/
def exBuild : Build :=
  { AOS := false, ONE_ATOM_TYPE := true, COMPUTE_STATS := true, VECTOR_WIDTH := 4 }

/-- Cutoff `5/2`, `sigma6 = 1`, `epsilon = 1`. -/
def exParam : Parameter := { cutforce := 5 / 2, sigma6 := 1, epsilon := 1 }

/-- Two owned particles on the x axis at `0` and `2`, one ghost (index 2) at
`x = 4` that is the image of particle 0; every force slot holds `1`. -/
def exAtom : Atom :=
  { Nlocal := 2, Nghost := 1, Nmax := 4
    x := fun n => if n = 1 then 2 else if n = 2 then 4 else 0
    y := fun _ => 0
    z := fun _ => 0
    fx := fun _ => 1
    fy := fun _ => 1
    fz := fun _ => 1
    border_map := fun _ => 0
    type := fun _ => 0
    ntypes := 1
    cutforcesq := fun _ => 25 / 4 }

/-- Four slots per particle; particle 0 lists particle 1, particle 1 lists
particle 0 and the ghost 2. -/
def exNeighbor : Neighbor :=
  { maxneighs := 4
    numneigh := fun n => if n = 0 then 1 else if n = 1 then 2 else 0
    neighbors := fun n => if n = 0 then 1 else if n = 5 then 2 else 0 }

/-- The buffer of `exNeighbor` with other content in the slots past each list. -/
def exNeighborPadded : Neighbor :=
  { maxneighs := 4
    numneigh := fun n => if n = 0 then 1 else if n = 1 then 2 else 0
    neighbors := fun n => if n = 0 then 1 else if n = 5 then 2 else if n = 4 then 0 else 7 }

/-- The particle store of `exAtom` with empty neighbour lists. -/
def exNoNeighbor : Neighbor :=
  { maxneighs := 4, numneigh := fun _ => 0, neighbors := fun _ => 0 }

/-- Lists for the two particles of `exAtom2` in which particle 0 names particle 1
twice and particle 1 names particle 0 once. -/
def exNeighborDup : Neighbor :=
  { maxneighs := 4
    numneigh := fun n => if n = 0 then 2 else if n = 1 then 1 else 0
    neighbors := fun n => if n = 0 then 1 else if n = 1 then 1 else 0 }

/-! ## Loop lemmas -/

theorem forUpTo_sum (a : Nat → ℚ) (n : Nat) (s : ℚ) :
    forUpTo (fun l t => t + a l) n s = s + ∑ l in Finset.range n, a l := by
  induction n with
  | zero => simp [forUpTo]
  | succ n ih => simp [forUpTo, ih, Finset.sum_range_succ, add_assoc]

theorem h_reduce_sum_eq (W : Nat) (a : MD_SIMD_FLOAT) :
    simd_real_h_reduce_sum W a = ∑ l in Finset.range W, a l := by
  simp [simd_real_h_reduce_sum, forUpTo_sum]

/-- With `W ≥ 1` the strided loop leaves by its guard once the bound covers the range. -/
theorem strideLoop_isSome {σ : Type} (W n : Nat) (body : Nat → σ → σ) :
    ∀ (fuel k : Nat) (s : σ), n ≤ k + fuel * W →
      ∃ s', strideLoop W n body fuel k s = some s' := by
  intro fuel
  induction fuel with
  | zero =>
    intro k s h
    have hk : ¬ k < n := by omega
    exact ⟨s, by simp [strideLoop, hk]⟩
  | succ f ih =>
    intro k s h
    by_cases hk : k < n
    · have h2 : n ≤ (k + W) + f * W := by
        have : (f + 1) * W = f * W + W := by ring
        omega
      obtain ⟨s', hs'⟩ := ih (k + W) (body k s) h2
      exact ⟨s', by simp [strideLoop, hk, hs']⟩
    · exact ⟨s, by simp [strideLoop, hk]⟩

/-- Lane sum of a register that every chunk updates by a masked term: the
horizontal sum grows by the terms at the list positions the loop has covered. -/
theorem strideLoop_hsum {σ : Type} (W n : Nat) (body : Nat → σ → σ)
    (proj : σ → MD_SIMD_FLOAT) (t : Nat → ℚ)
    (hbody : ∀ k s l, proj (body k s) l = proj s l + if k + l < n then t (k + l) else 0) :
    ∀ (fuel k : Nat) (s s' : σ), strideLoop W n body fuel k s = some s' →
      ∑ l in Finset.range W, proj s' l =
        ∑ l in Finset.range W, proj s l + ∑ p in Finset.Ico k n, t p := by
  intro fuel
  induction fuel with
  | zero =>
    intro k s s' h
    by_cases hk : k < n
    · simp [strideLoop, hk] at h
    · simp only [strideLoop, hk, if_false, Option.some.injEq] at h
      subst h
      rw [Finset.Ico_eq_empty (by omega)]
      simp
  | succ f ih =>
    intro k s s' h
    by_cases hk : k < n
    · simp only [strideLoop, hk, if_true] at h
      rw [ih (k + W) (body k s) s' h]
      have hstep : ∑ l in Finset.range W, proj (body k s) l =
          ∑ l in Finset.range W, proj s l +
            ∑ l in Finset.range W, (if k + l < n then t (k + l) else 0) := by
        rw [← Finset.sum_add_distrib]
        exact Finset.sum_congr rfl (fun l _ => hbody k s l)
      have hsplit : ∑ l in Finset.range W, (if k + l < n then t (k + l) else 0) +
          ∑ p in Finset.Ico (k + W) n, t p = ∑ p in Finset.Ico k n, t p := by
        by_cases hW : k + W ≤ n
        · rw [← Finset.sum_Ico_consecutive t (Nat.le_add_right k W) hW,
            Finset.sum_Ico_eq_sum_range t k (k + W), Nat.add_sub_cancel_left]
          congr 1
          refine Finset.sum_congr rfl (fun l hl => ?_)
          have : k + l < n := by
            have := Finset.mem_range.mp hl
            omega
          simp [this]
        · rw [Finset.Ico_eq_empty (by omega), Finset.sum_empty, add_zero,
            Finset.sum_Ico_eq_sum_range t k n]
          have hsub : Finset.range (n - k) ⊆ Finset.range W := by
            intro l hl
            have := Finset.mem_range.mp hl
            exact Finset.mem_range.mpr (by omega)
          rw [← Finset.sum_subset hsub]
          · refine Finset.sum_congr rfl (fun l hl => ?_)
            have : k + l < n := by
              have := Finset.mem_range.mp hl
              omega
            simp [this]
          · intro l _ hl
            have : ¬ k + l < n := by
              intro hc
              exact hl (Finset.mem_range.mpr (by omega))
            simp [this]
      rw [hstep, add_assoc, hsplit]
    · simp only [strideLoop, hk, if_false, Option.some.injEq] at h
      subst h
      rw [Finset.Ico_eq_empty (by omega)]
      simp

/-! ## The vector kernel against the scalar loop -/

theorem aos_index (j : Nat) : 0 + (j + j + j) = j * 3 + 0 ∧ 1 + (j + j + j) = j * 3 + 1 ∧
    2 + (j + j + j) = j * 3 + 2 := by
  omega

/-- One chunk adds, in lane `l`, the scalar term of list position `k + l` when
that position is inside the list, and nothing otherwise. -/
theorem ljChunk_lane (b : Build) (param : Parameter) (atom : Atom) (neighbor : Neighbor)
    (i k l : Nat) (acc : LJAcc) :
    let c := ljChunk b param atom (fun p => neighbor.neighbors (i * neighbor.maxneighs + p))
      (neighbor.numneigh i) i k acc
    let t := ljPairTerm b param atom neighbor i (k + l)
    c.fix l = acc.fix l + (if k + l < neighbor.numneigh i then t.1 else 0) ∧
    c.fiy l = acc.fiy l + (if k + l < neighbor.numneigh i then t.2.1 else 0) ∧
    c.fiz l = acc.fiz l + (if k + l < neighbor.numneigh i then t.2.2 else 0) := by
  obtain ⟨h0, h1, h2⟩ := aos_index (neighbor.neighbors (i * neighbor.maxneighs + (k + l)))
  have key : ∀ (dx dy dz ax ay az cut s6 ep : ℚ),
      let t : ℚ × ℚ × ℚ := if dx * dx + dy * dy + dz * dz < cut then
          (dx * (48 * ((1 / (dx * dx + dy * dy + dz * dz)) ^ 3 * s6) *
            ((1 / (dx * dx + dy * dy + dz * dz)) ^ 3 * s6 - 1 / 2) *
            (1 / (dx * dx + dy * dy + dz * dz)) * ep),
           dy * (48 * ((1 / (dx * dx + dy * dy + dz * dz)) ^ 3 * s6) *
            ((1 / (dx * dx + dy * dy + dz * dz)) ^ 3 * s6 - 1 / 2) *
            (1 / (dx * dx + dy * dy + dz * dz)) * ep),
           dz * (48 * ((1 / (dx * dx + dy * dy + dz * dz)) ^ 3 * s6) *
            ((1 / (dx * dx + dy * dy + dz * dz)) ^ 3 * s6 - 1 / 2) *
            (1 / (dx * dx + dy * dy + dz * dz)) * ep))
        else (0, 0, 0)
      let f : ℚ := 48 * (1 / (dx * dx + (dy * dy + dz * dz)) *
              (1 / (dx * dx + (dy * dy + dz * dz)) *
                (1 / (dx * dx + (dy * dy + dz * dz)) * s6)) *
              ((1 / (dx * dx + (dy * dy + dz * dz)) *
                (1 / (dx * dx + (dy * dy + dz * dz)) *
                  (1 / (dx * dx + (dy * dy + dz * dz)) * s6)) - 1 / 2) *
                (1 / (dx * dx + (dy * dy + dz * dz)) * ep)))
      ((if dx * dx + (dy * dy + dz * dz) < cut then ax + dx * f else ax) = ax + t.1) ∧
      ((if dx * dx + (dy * dy + dz * dz) < cut then ay + dy * f else ay) = ay + t.2.1) ∧
      ((if dx * dx + (dy * dy + dz * dz) < cut then az + dz * f else az) = az + t.2.2) := by
    intro dx dy dz ax ay az cut s6 ep
    simp only
    rw [← add_assoc (dx * dx)]
    generalize dx * dx + dy * dy + dz * dz = r
    split_ifs
    · refine ⟨?_, ?_, ?_⟩ <;> simp only <;> ring
    · simp
  by_cases hk : k + l < neighbor.numneigh i
  · cases hA : b.AOS <;>
    simp only [ljChunk, ljChunkRegs, ljPairTerm, ljForceVec, simd_real_masked_add, simd_mask_and,
      simd_mask_i32_cond_lt, simd_mask_cond_lt, simd_i32_add, simd_i32_broadcast, simd_i32_seq,
      simd_real_broadcast, simd_real_mul, simd_real_sub, simd_real_fma, simd_real_reciprocal,
      simd_i32_mask_load, simd_real_gather, atom_x, atom_y, atom_z, hA, hk, decide_True,
      if_true, Bool.true_and, decide_eq_true_eq, Bool.false_eq_true, if_false, h0, h1, h2] <;>
    exact key _ _ _ _ _ _ _ _ _
  · simp [ljChunk, ljChunkRegs, simd_real_masked_add, simd_mask_and, simd_mask_i32_cond_lt,
      simd_i32_add, simd_i32_broadcast, simd_i32_seq, hk]

/-- The scalar loop is the sum of the pair terms over the list positions. -/
theorem ljScalarLoop_eq_sum (b : Build) (param : Parameter) (atom : Atom) (neighbor : Neighbor)
    (i : Nat) :
    ljScalarLoop b param atom neighbor i =
      (∑ k in Finset.range (neighbor.numneigh i), (ljPairTerm b param atom neighbor i k).1,
       ∑ k in Finset.range (neighbor.numneigh i), (ljPairTerm b param atom neighbor i k).2.1,
       ∑ k in Finset.range (neighbor.numneigh i), (ljPairTerm b param atom neighbor i k).2.2) := by
  unfold ljScalarLoop
  generalize neighbor.numneigh i = n
  induction n with
  | zero => simp [forUpTo]
  | succ n ih =>
    simp only [forUpTo, Finset.sum_range_succ]
    rw [ih]
    simp only [ljPairTerm]
    split_ifs <;> simp

/-- With at least one lane and a bound that covers the list, the chunk loop of
particle `i` ends, and the lanes of each accumulator sum to the scalar sum. -/
theorem ljLanes_sum (b : Build) (param : Parameter) (atom : Atom) (neighbor : Neighbor)
    (fuel i : Nat) (hW : 1 ≤ b.VECTOR_WIDTH) (hfuel : neighbor.numneigh i ≤ fuel) :
    ∃ acc, ljLanes b param atom neighbor fuel i = some acc ∧
      simd_real_h_reduce_sum b.VECTOR_WIDTH acc.fix = (ljScalarLoop b param atom neighbor i).1 ∧
      simd_real_h_reduce_sum b.VECTOR_WIDTH acc.fiy = (ljScalarLoop b param atom neighbor i).2.1 ∧
      simd_real_h_reduce_sum b.VECTOR_WIDTH acc.fiz = (ljScalarLoop b param atom neighbor i).2.2 := by
  have hcover : neighbor.numneigh i ≤ 0 + fuel * b.VECTOR_WIDTH := by
    have : fuel * 1 ≤ fuel * b.VECTOR_WIDTH := Nat.mul_le_mul_left fuel hW
    omega
  obtain ⟨acc, hacc⟩ := strideLoop_isSome b.VECTOR_WIDTH (neighbor.numneigh i)
    (ljChunk b param atom (fun p => neighbor.neighbors (i * neighbor.maxneighs + p))
      (neighbor.numneigh i) i) fuel 0
    { fix := simd_real_zero, fiy := simd_real_zero, fiz := simd_real_zero } hcover
  refine ⟨acc, hacc, ?_, ?_, ?_⟩
  · have h := strideLoop_hsum b.VECTOR_WIDTH (neighbor.numneigh i) _ LJAcc.fix
      (fun p => (ljPairTerm b param atom neighbor i p).1)
      (fun k s l => (ljChunk_lane b param atom neighbor i k l s).1) fuel 0 _ acc hacc
    rw [h_reduce_sum_eq, h, ljScalarLoop_eq_sum]
    simp only [simd_real_zero, Finset.sum_const_zero, zero_add, Nat.Ico_zero_eq_range]
  · have h := strideLoop_hsum b.VECTOR_WIDTH (neighbor.numneigh i) _ LJAcc.fiy
      (fun p => (ljPairTerm b param atom neighbor i p).2.1)
      (fun k s l => (ljChunk_lane b param atom neighbor i k l s).2.1) fuel 0 _ acc hacc
    rw [h_reduce_sum_eq, h, ljScalarLoop_eq_sum]
    simp only [simd_real_zero, Finset.sum_const_zero, zero_add, Nat.Ico_zero_eq_range]
  · have h := strideLoop_hsum b.VECTOR_WIDTH (neighbor.numneigh i) _ LJAcc.fiz
      (fun p => (ljPairTerm b param atom neighbor i p).2.2)
      (fun k s l => (ljChunk_lane b param atom neighbor i k l s).2.2) fuel 0 _ acc hacc
    rw [h_reduce_sum_eq, h, ljScalarLoop_eq_sum]
    simp only [simd_real_zero, Finset.sum_const_zero, zero_add, Nat.Ico_zero_eq_range]

/-- The chunk loop reads the particle store only through the positions. -/
theorem ljLanes_congr (b : Build) (param : Parameter) (a atom : Atom) (neighbor : Neighbor)
    (fuel i : Nat) (hx : a.x = atom.x) (hy : a.y = atom.y) (hz : a.z = atom.z) :
    ljLanes b param a neighbor fuel i = ljLanes b param atom neighbor fuel i := by
  have hc : ∀ (neighs : Nat → Nat) (n k : Nat) (acc : LJAcc),
      ljChunk b param a neighs n i k acc = ljChunk b param atom neighs n i k acc := by
    intro neighs n k acc
    simp only [ljChunk, ljChunkRegs, atom_x, atom_y, atom_z, hx, hy, hz]
  simp only [ljLanes]
  congr 1
  funext k acc
  exact hc _ _ k acc

/-- The clearing loop zeroes exactly the slots below its bound. -/
theorem zero_loop_eq (atom : Atom) (n : Nat) :
    forUpTo (fun i a =>
      { a with fx := Function.update a.fx i 0
               fy := Function.update a.fy i 0
               fz := Function.update a.fz i 0 }) n atom =
    { atom with fx := fun i => if i < n then 0 else atom.fx i
                fy := fun i => if i < n then 0 else atom.fy i
                fz := fun i => if i < n then 0 else atom.fz i } := by
  induction n with
  | zero => simp [forUpTo]
  | succ n ih =>
    simp only [forUpTo, ih]
    congr 1 <;> funext i <;> by_cases h : i = n
    all_goals first
      | (subst h; simp)
      | (have h1 : (i < n + 1) = (i < n) := by
           apply propext
           constructor <;> intro hh <;> omega
         simp [Function.update, h, h1])

theorem ljZeroForces_eq (atom : Atom) :
    ljZeroForces atom =
    { atom with fx := fun i => if i < atom.Nlocal then 0 else atom.fx i
                fy := fun i => if i < atom.Nlocal then 0 else atom.fy i
                fz := fun i => if i < atom.Nlocal then 0 else atom.fz i } :=
  zero_loop_eq atom atom.Nlocal

/-- Writing force slots does not change what a chunk loop computes. -/
theorem ljLanes_forces (b : Build) (param : Parameter) (atom : Atom) (neighbor : Neighbor)
    (fuel i : Nat) (gx gy gz : Nat → ℚ) :
    ljLanes b param { atom with fx := gx, fy := gy, fz := gz } neighbor fuel i =
      ljLanes b param atom neighbor fuel i :=
  ljLanes_congr b param _ atom neighbor fuel i rfl rfl rfl

theorem ljScalarLoop_congr (b : Build) (param : Parameter) (a atom : Atom)
    (neighbor : Neighbor) (i : Nat) (hx : a.x = atom.x) (hy : a.y = atom.y) (hz : a.z = atom.z) :
    ljScalarLoop b param a neighbor i = ljScalarLoop b param atom neighbor i := by
  simp only [ljScalarLoop, atom_x, atom_y, atom_z, hx, hy, hz]

/-- Closed form of the loop over the owned particles: slots below the bound
gain the scalar sums, every other field is untouched. -/
theorem ljForceLoop_eq (b : Build) (param : Parameter) (neighbor : Neighbor) (fuel : Nat)
    (atom : Atom) (hW : 1 ≤ b.VECTOR_WIDTH) :
    ∀ n : Nat, (∀ i, i < n → neighbor.numneigh i ≤ fuel) →
      ljForceLoop b param neighbor fuel n atom = some
        { atom with
          fx := fun i => if i < n then atom.fx i + (ljScalarLoop b param atom neighbor i).1
            else atom.fx i
          fy := fun i => if i < n then atom.fy i + (ljScalarLoop b param atom neighbor i).2.1
            else atom.fy i
          fz := fun i => if i < n then atom.fz i + (ljScalarLoop b param atom neighbor i).2.2
            else atom.fz i } := by
  intro n
  induction n with
  | zero => intro _; simp [ljForceLoop]
  | succ n ih =>
    intro hfuel
    have ihn := ih (fun i hi => hfuel i (Nat.lt_succ_of_lt hi))
    obtain ⟨acc, hacc, h1, h2, h3⟩ :=
      ljLanes_sum b param atom neighbor fuel n hW (hfuel n (Nat.lt_succ_self n))
    simp only [ljForceLoop, ihn]
    rw [ljLanes_forces, hacc]
    simp only [h1, h2, h3, lt_irrefl, if_false]
    congr 2 <;>
    · funext i
      by_cases h : i = n
      · subst h; simp
      · have h1 : (i < n + 1) = (i < n) := by
          apply propext
          constructor <;> intro hh <;> omega
        simp [Function.update, h, h1]

/-- Closed form of `computeForceLJFullNeigh_simd`: the kernel ends, every owned
slot holds the scalar sum of its list, and nothing else changes. -/
theorem lj_kernel_eq (b : Build) (param : Parameter) (atom : Atom) (neighbor : Neighbor)
    (fuel : Nat) (hW : 1 ≤ b.VECTOR_WIDTH)
    (hfuel : ∀ i, i < atom.Nlocal → neighbor.numneigh i ≤ fuel) :
    computeForceLJFullNeigh_simd b param atom neighbor fuel = some
      { atom with
        fx := fun i => if i < atom.Nlocal then (ljScalarLoop b param atom neighbor i).1
          else atom.fx i
        fy := fun i => if i < atom.Nlocal then (ljScalarLoop b param atom neighbor i).2.1
          else atom.fy i
        fz := fun i => if i < atom.Nlocal then (ljScalarLoop b param atom neighbor i).2.2
          else atom.fz i } := by
  unfold computeForceLJFullNeigh_simd
  have hN : (ljZeroForces atom).Nlocal = atom.Nlocal := by rw [ljZeroForces_eq]
  rw [ljForceLoop_eq b param neighbor fuel (ljZeroForces atom) hW atom.Nlocal hfuel]
  have hS : ∀ i, ljScalarLoop b param (ljZeroForces atom) neighbor i =
      ljScalarLoop b param atom neighbor i := by
    intro i
    apply ljScalarLoop_congr <;> rw [ljZeroForces_eq]
  simp only [hS]
  rw [ljZeroForces_eq]
  congr 2 <;>
  · funext i
    by_cases h : i < atom.Nlocal <;> simp [h]

/-- C1 (mask correctness).  For every build with `VECTOR_WIDTH ≥ 1`, every particle store
and every neighbour list, `computeForceLJFullNeigh_simd` ends (given a bound that covers
the longest list) and the force it stores for each owned particle `i` (lane-wise masked
accumulation over the chunks, then the horizontal sum) equals the scalar loop over the
same neighbour set: the sum over `k < numneigh[i]` with `rsq < cutforcesq` of
`del * 48 * sr6 * (sr6 - 0.5) * sr2 * epsilon`. -/
theorem simd_kernel_eq_scalar_loop (b : Build) (param : Parameter) (atom : Atom)
    (neighbor : Neighbor) (fuel : Nat) (hW : 1 ≤ b.VECTOR_WIDTH)
    (hfuel : ∀ i, i < atom.Nlocal → neighbor.numneigh i ≤ fuel) :
    ∃ atom', computeForceLJFullNeigh_simd b param atom neighbor fuel = some atom' ∧
      ∀ i, i < atom.Nlocal →
        (atom'.fx i, atom'.fy i, atom'.fz i) = ljScalarLoop b param atom neighbor i := by
  refine ⟨_, lj_kernel_eq b param atom neighbor fuel hW hfuel, ?_⟩
  intro i hi
  simp [hi]

/-- Instance of `simd_kernel_eq_scalar_loop` on the two-particle store `exAtom`. -/
theorem simd_kernel_eq_scalar_loop_witness :
    ∃ atom', computeForceLJFullNeigh_simd exBuild exParam exAtom exNeighbor 2 = some atom' ∧
      ∀ i, i < exAtom.Nlocal →
        (atom'.fx i, atom'.fy i, atom'.fz i) = ljScalarLoop exBuild exParam exAtom exNeighbor i :=
  simd_kernel_eq_scalar_loop exBuild exParam exAtom exNeighbor 2 (by decide)
    (by
      intro i _
      simp only [exNeighbor]
      split_ifs <;> omega)

/-! ## The Lennard-Jones coefficient -/

/-- C2, as amended.  For every lane whose squared separation `rsq = r ^ 2` is not zero
(whether or not it is the square of a rational `r`), the scalar by which
`computeForceLJFullNeigh_simd` multiplies the separation vector is
`48 * epsilon * (sigma6 / r ^ 6) / r ^ 2 * (sigma6 / r ^ 6 - 0.5)`, with `r ^ 6` the cube
of `rsq`; this holds for the `force` register of every chunk of the kernel. -/
theorem lj_coefficient (b : Build) (param : Parameter) (atom : Atom) :
    (∀ (sigma6 epsilon : ℚ) (rsq : MD_SIMD_FLOAT) (l : Nat), rsq l ≠ 0 →
      ljForceVec (simd_real_broadcast sigma6) (simd_real_broadcast epsilon) rsq l =
        48 * epsilon * (sigma6 / (rsq l) ^ 3) / rsq l * (sigma6 / (rsq l) ^ 3 - 1 / 2)) ∧
    (∀ (neighs : Nat → Nat) (numneighs i k l : Nat),
      (ljChunkRegs b param atom neighs numneighs i k).rsq l ≠ 0 →
      (ljChunkRegs b param atom neighs numneighs i k).force l =
        48 * param.epsilon *
          (param.sigma6 / ((ljChunkRegs b param atom neighs numneighs i k).rsq l) ^ 3) /
          (ljChunkRegs b param atom neighs numneighs i k).rsq l *
          (param.sigma6 / ((ljChunkRegs b param atom neighs numneighs i k).rsq l) ^ 3 -
            1 / 2)) := by
  have h : ∀ (sigma6 epsilon : ℚ) (rsq : MD_SIMD_FLOAT) (l : Nat), rsq l ≠ 0 →
      ljForceVec (simd_real_broadcast sigma6) (simd_real_broadcast epsilon) rsq l =
        48 * epsilon * (sigma6 / (rsq l) ^ 3) / rsq l * (sigma6 / (rsq l) ^ 3 - 1 / 2) := by
    intro sigma6 epsilon rsq l hr
    simp only [ljForceVec, simd_real_mul, simd_real_sub, simd_real_reciprocal,
      simd_real_broadcast]
    field_simp
    ring
  refine ⟨h, ?_⟩
  intro neighs numneighs i k l hr
  exact h param.sigma6 param.epsilon (ljChunkRegs b param atom neighs numneighs i k).rsq l hr

/-- Instance of `lj_coefficient` at the squared separation `2`, which is not the square
of a rational, with `sigma6 = epsilon = 1`. -/
theorem lj_coefficient_witness :
    ljForceVec (simd_real_broadcast 1) (simd_real_broadcast 1) (simd_real_broadcast 2) 0 =
      48 * 1 * (1 / (simd_real_broadcast 2 0) ^ 3) / simd_real_broadcast 2 0 *
        (1 / (simd_real_broadcast 2 0) ^ 3 - 1 / 2) :=
  (lj_coefficient exBuild exParam exAtom).1 1 1 (simd_real_broadcast 2) 0
    (by simp only [simd_real_broadcast]; norm_num)

/-- C2, as stated, fails: at `r = 2` (`rsq = 4`, inside the cutoff `5/2` of `exParam`),
`sigma6 = epsilon = 1` the kernel's coefficient is `-93/1024`, while
`48 * epsilon * sigma6 / r ^ 2 * (sigma6 / r ^ 6 - 0.5)` is `-93/16`; accordingly the
kernel stores `fx[0] = (0 - 2) * (-93/1024)` for particle 0 of `exAtom`, whose only
neighbour sits at `x = 2`. -/
theorem lj_coefficient_counterexample :
    ljForceVec (simd_real_broadcast 1) (simd_real_broadcast 1) (simd_real_broadcast (2 ^ 2)) 0 =
      -93 / 1024 ∧
    ljForceVec (simd_real_broadcast 1) (simd_real_broadcast 1) (simd_real_broadcast (2 ^ 2)) 0 ≠
      48 * 1 * 1 / 2 ^ 2 * (1 / 2 ^ 6 - 1 / 2) ∧
    ∃ a, computeForceLJFullNeigh_simd exBuild exParam exAtom exNeighbor 2 = some a ∧
      a.fx 0 = (0 - 2) * (-93 / 1024) := by
  have h : ljForceVec (simd_real_broadcast 1) (simd_real_broadcast 1)
      (simd_real_broadcast (2 ^ 2)) 0 = -93 / 1024 := by
    simp only [ljForceVec, simd_real_mul, simd_real_sub, simd_real_reciprocal,
      simd_real_broadcast]
    norm_num
  refine ⟨h, ?_, ?_⟩
  · rw [h]
    norm_num
  · have hfuel : ∀ i, i < exAtom.Nlocal → exNeighbor.numneigh i ≤ 2 := by
      intro i _
      simp only [exNeighbor]
      split_ifs <;> omega
    have hS : ljScalarLoop exBuild exParam exAtom exNeighbor 0 = (93 / 512, 0, 0) := by
      norm_num [ljScalarLoop, exNeighbor, forUpTo, atom_x, atom_y, atom_z, exBuild, exAtom,
        exParam]
    have hN : (0 : Nat) < exAtom.Nlocal := by decide
    refine ⟨_, lj_kernel_eq exBuild exParam exAtom exNeighbor 2 (by decide) hfuel, ?_⟩
    simp only [hN, if_true, hS]
    norm_num

/-! ## Pass 1 and the ghost copy of `computeForceEam` -/

/-- A loop that stores `g i` in slot `i` fills exactly the slots below its bound. -/
theorem store_loop_eq (g : Nat → ℚ) (fp : Nat → ℚ) (n : Nat) :
    forUpTo (fun i f => Function.update f i (g i)) n fp =
      fun i => if i < n then g i else fp i := by
  induction n with
  | zero => simp [forUpTo]
  | succ n ih =>
    simp only [forUpTo, ih]
    funext i
    by_cases h : i = n
    · subst h; simp
    · have h1 : (i < n + 1) = (i < n) := by
        apply propext
        constructor <;> intro hh <;> omega
      simp [Function.update, h, h1]

theorem eamPass1_eq (b : Build) (param : Parameter) (atom : Atom) (neighbor : Neighbor)
    (eam : Eam) (sqrt : ℚ → ℚ) (fp : Nat → ℚ) :
    eamPass1 b param atom neighbor eam sqrt fp =
      fun i => if i < atom.Nlocal then eamEmbed b param atom neighbor eam sqrt i else fp i :=
  store_loop_eq _ fp atom.Nlocal

/-- The ghost copy loop leaves the slots below `N` alone and stores in slot
`N + g` the value of the source slot, when the source is below `N`. -/
theorem copy_loop_spec (bm : Nat → Nat) (N : Nat) (fp : Nat → ℚ) (n : Nat) :
    (∀ s, s < N →
      forUpTo (fun i f => Function.update f (N + i) (f (bm i))) n fp s = fp s) ∧
    (∀ g, g < n → bm g < N →
      forUpTo (fun i f => Function.update f (N + i) (f (bm i))) n fp (N + g) = fp (bm g)) := by
  induction n with
  | zero =>
    refine ⟨fun s _ => rfl, fun g hg _ => ?_⟩
    omega
  | succ n ih =>
    obtain ⟨ih1, ih2⟩ := ih
    have hown : ∀ s, s < N →
        forUpTo (fun i f => Function.update f (N + i) (f (bm i))) (n + 1) fp s = fp s := by
      intro s hs
      have hne : s ≠ N + n := by omega
      simp only [forUpTo, Function.update, hne, dif_neg, not_false_eq_true]
      exact ih1 s hs
    refine ⟨hown, fun g hg hb => ?_⟩
    by_cases h : g = n
    · subst h
      simp only [forUpTo, Function.update_same]
      exact ih1 _ hb
    · have hne : N + g ≠ N + n := by omega
      simp only [forUpTo, Function.update, hne, dif_neg, not_false_eq_true]
      exact ih2 g (by omega) hb

/-- Pass 1 does not read the `fp` array nor the capacity `nmax`. -/
theorem eamEmbed_realloc (b : Build) (param : Parameter) (atom : Atom) (neighbor : Neighbor)
    (eam : Eam) (sqrt : ℚ → ℚ) (i N : Nat) (f : Nat → ℚ) :
    eamEmbed b param atom neighbor { eam with nmax := N, fp := f } sqrt i =
      eamEmbed b param atom neighbor eam sqrt i := rfl

/-- The `fp` array that `computeForceEam` leaves behind: pass 1 followed by the copy. -/
theorem computeForceEam_fp (b : Build) (param : Parameter) (atom : Atom) (neighbor : Neighbor)
    (stats : Stats) (eam : Eam) (sqrt : ℚ → ℚ) (fresh : Nat → ℚ) :
    (computeForceEam b param atom neighbor stats eam sqrt fresh).2.2.fp =
      eamCopyGhosts atom (fun i => if i < atom.Nlocal then
        eamEmbed b param atom neighbor eam sqrt i
        else (if eam.nmax < atom.Nmax then fresh else eam.fp) i) := by
  simp only [computeForceEam, eamPass1_eq]
  by_cases h : eam.nmax < atom.Nmax
  · simp only [h, if_true, eamEmbed_realloc]
  · simp only [h, if_false]

/-- C3 (ghost consistency).  For every ghost `g < Nghost` whose source
`s = border_map[g]` is owned, after the density pass and the copy step of
`computeForceEam` the array holds `fp[Nlocal + g] = fp[s]`, and that value is the
one pass 1 computed for the owner `s`: it is copied, no density is computed for the
ghost. -/
theorem eam_ghost_fp_copied (b : Build) (param : Parameter) (atom : Atom)
    (neighbor : Neighbor) (stats : Stats) (eam : Eam) (sqrt : ℚ → ℚ) (fresh : Nat → ℚ)
    (g : Nat) (hg : g < atom.Nghost) (hs : atom.border_map g < atom.Nlocal) :
    (computeForceEam b param atom neighbor stats eam sqrt fresh).2.2.fp (atom.Nlocal + g) =
      (computeForceEam b param atom neighbor stats eam sqrt fresh).2.2.fp (atom.border_map g) ∧
    (computeForceEam b param atom neighbor stats eam sqrt fresh).2.2.fp (atom.Nlocal + g) =
      eamEmbed b param atom neighbor eam sqrt (atom.border_map g) := by
  rw [computeForceEam_fp]
  obtain ⟨h1, h2⟩ := copy_loop_spec atom.border_map atom.Nlocal
    (fun i => if i < atom.Nlocal then eamEmbed b param atom neighbor eam sqrt i
      else (if eam.nmax < atom.Nmax then fresh else eam.fp) i) atom.Nghost
  simp only [eamCopyGhosts]
  rw [h2 g hg hs, h1 _ hs]
  simp [hs]

/-- Instance of `eam_ghost_fp_copied`: the ghost of `exAtom` is the image of particle 0. -/
theorem eam_ghost_fp_copied_witness :
    (computeForceEam exBuild exParam exAtom exNeighbor exStats exEam exSqrt (fun _ => 0)).2.2.fp
        (exAtom.Nlocal + 0) =
      (computeForceEam exBuild exParam exAtom exNeighbor exStats exEam exSqrt (fun _ => 0)).2.2.fp
        (exAtom.border_map 0) ∧
    (computeForceEam exBuild exParam exAtom exNeighbor exStats exEam exSqrt (fun _ => 0)).2.2.fp
        (exAtom.Nlocal + 0) =
      eamEmbed exBuild exParam exAtom exNeighbor exEam exSqrt (exAtom.border_map 0) :=
  eam_ghost_fp_copied exBuild exParam exAtom exNeighbor exStats exEam exSqrt (fun _ => 0) 0
    (by decide) (by decide)

/-! ## The clamping policy of the spline lookup -/

/-- Inside the range of `int` the conversion of a non-negative real is the floor. -/
theorem cTruncInt_of_nonneg (p : ℚ) (hp : 0 ≤ p) (hlt : p < 2147483648) :
    cTruncInt p = ⌊p⌋ := by
  have h0 : (0 : Int) ≤ ⌊p⌋ := Int.floor_nonneg.mpr hp
  have h1 : ⌊p⌋ < 2147483648 := Int.floor_lt.mpr (by exact_mod_cast hlt)
  have hr : INT_MIN ≤ ⌊p⌋ ∧ ⌊p⌋ ≤ INT_MAX := by
    simp only [INT_MIN, INT_MAX]
    omega
  simp only [cTruncInt, hp, if_true, hr, and_self]

/-- From `2 ^ 31` on the conversion leaves the range of `int`. -/
theorem cTruncInt_of_large (p : ℚ) (hp : 2147483648 ≤ p) : cTruncInt p = INT_MIN := by
  have h0 : 0 ≤ p := by linarith
  have h1 : (2147483648 : Int) ≤ ⌊p⌋ := Int.le_floor.mpr (by exact_mod_cast hp)
  have hr : ¬ (INT_MIN ≤ ⌊p⌋ ∧ ⌊p⌋ ≤ INT_MAX) := by
    simp only [INT_MIN, INT_MAX]
    omega
  simp only [cTruncInt, h0, if_true, hr, if_false]

/-- Below zero the truncation and the floor differ, but neither is positive. -/
theorem cTruncInt_of_neg (p : ℚ) (hp : p < 0) : cTruncInt p ≤ 0 ∧ ⌊p⌋ ≤ 0 := by
  have h1 : ¬ (0 ≤ p) := not_le.mpr hp
  have h2 : (0 : Int) ≤ ⌊-p⌋ := Int.floor_nonneg.mpr (by linarith)
  have h3 : ⌊p⌋ ≤ 0 := by
    have : ⌊p⌋ < 0 := Int.floor_lt.mpr (by simpa using hp)
    omega
  refine ⟨?_, h3⟩
  simp only [cTruncInt, h1, if_false]
  split_ifs
  · omega
  · simp [INT_MIN]

theorem pairSplineIndex_fst (eam : Eam) (r : ℚ) (hr : 0 ≤ r) (hrdr : 0 ≤ eam.rdr)
    (hrange : r * eam.rdr + 1 < 2147483648) :
    (pairSplineIndex eam r).1 = min (⌊r * eam.rdr⌋ + 1) (eam.nr - 1) ∧
      1 ≤ ⌊r * eam.rdr⌋ + 1 := by
  have hx : 0 ≤ r * eam.rdr := mul_nonneg hr hrdr
  have hf : (0 : Int) ≤ ⌊r * eam.rdr⌋ := Int.floor_nonneg.mpr hx
  have ht : cTruncInt (r * eam.rdr + 1) = ⌊r * eam.rdr⌋ + 1 := by
    rw [cTruncInt_of_nonneg _ (by linarith) hrange, Int.floor_add_one]
  refine ⟨?_, by omega⟩
  simp only [pairSplineIndex, ht, min_def]
  split_ifs <;> omega

theorem embedSplineIndex_fst (eam : Eam) (rhoi : ℚ)
    (hrange : rhoi * eam.rdrho + 1 < 2147483648) :
    (embedSplineIndex eam rhoi).1 = max 1 (min (⌊rhoi * eam.rdrho⌋ + 1) (eam.nrho - 1)) := by
  have hfl : ⌊1 * rhoi * eam.rdrho + 1⌋ = ⌊rhoi * eam.rdrho⌋ + 1 := by
    rw [one_mul, Int.floor_add_one]
  have hrange' : 1 * rhoi * eam.rdrho + 1 < 2147483648 := by
    rw [one_mul]
    exact hrange
  by_cases hp : 0 ≤ 1 * rhoi * eam.rdrho + 1
  · simp only [embedSplineIndex, cTruncInt_of_nonneg _ hp hrange', hfl, MAX, MIN, max_def,
      min_def]
    split_ifs <;> omega
  · obtain ⟨h1, h2⟩ := cTruncInt_of_neg _ (not_le.mp hp)
    rw [hfl] at h2
    simp only [embedSplineIndex, MAX, MIN, max_def, min_def]
    split_ifs <;> omega

/-- The lower and upper clamp of the embedding spline hold whatever the conversion
delivers. -/
theorem embedSplineIndex_bounds (eam : Eam) (rhoi : ℚ) (hn : 2 ≤ eam.nrho) :
    1 ≤ (embedSplineIndex eam rhoi).1 ∧ (embedSplineIndex eam rhoi).1 ≤ eam.nrho - 1 := by
  simp only [embedSplineIndex, MAX, MIN]
  split_ifs <;> constructor <;> omega

/-- C4, as stated, fails where `(int)(x + 1.0)` leaves the range of `int`: with the
tables of `exEam` (`rdr = rdrho = 1`, ten bins) and the argument `x = 2 ^ 31` the
conversion delivers `INT_MIN`, so the embedding spline uses bin `1` and the pair spline
the index `INT_MIN`, where `clamp(floor(x) + 1, 1, n - 1)` is bin `9`. -/
theorem eam_spline_clamp_counterexample :
    (embedSplineIndex exEam 2147483648).1 = 1 ∧
    specClampIndex (2147483648 * exEam.rdrho) 1 exEam.nrho = 9 ∧
    (pairSplineIndex exEam 2147483648).1 = INT_MIN ∧
    specClampIndex (2147483648 * exEam.rdr) 1 exEam.nr = 9 := by
  have hc : cTruncInt (2147483649 : ℚ) = INT_MIN := cTruncInt_of_large _ (by norm_num)
  have hfl : ⌊(2147483648 : ℚ)⌋ = 2147483648 := by
    exact_mod_cast Int.floor_intCast (2147483648 : Int)
  refine ⟨?_, ?_, ?_, ?_⟩
  · have h : (1 : ℚ) * 2147483648 * exEam.rdrho + 1 = 2147483649 := by norm_num [exEam]
    simp only [embedSplineIndex, h, hc]
    simp [MAX, MIN, INT_MIN, exEam]
  · have h : (2147483648 : ℚ) * exEam.rdrho = 2147483648 := by norm_num [exEam]
    simp only [specClampIndex, h, hfl]
    simp [exEam]
  · have h : (2147483648 : ℚ) * exEam.rdr + 1 = 2147483649 := by norm_num [exEam]
    simp only [pairSplineIndex, h, hc]
    simp [INT_MIN, exEam]
  · have h : (2147483648 : ℚ) * exEam.rdr = 2147483648 := by norm_num [exEam]
    simp only [specClampIndex, h, hfl]
    simp [exEam]

/-- C4, as amended.  Where `x + 1 < 2 ^ 31`, so that `(int)(x + 1.0)` is inside the range
of `int`: for the pair splines (`x = r * rdr`, `r ≥ 0`, `rdr ≥ 0`) the index used is
`clamp(floor(x) + 1, lower, nr - 1)` for every lower index that the table admits
(`lower ≤ 1`, `lower ≤ nr - 1`; the code has no lower clamp there because
`floor(x) + 1 ≥ 1`), and for the embedding spline (`x = rhoi * rdrho`, negative `rhoi`
included) it is `clamp(floor(x) + 1, 1, nrho - 1)`; in both the fraction is
`min(x + 1 - m, 1.0)`.  There the C truncation `(int)(x + 1.0)` followed by the code's
min/max is the floor-based clamp of the specification. -/
theorem eam_spline_clamp (eam : Eam) :
    (∀ r : ℚ, 0 ≤ r → 0 ≤ eam.rdr → r * eam.rdr + 1 < 2147483648 →
      ∀ lower : Int, lower ≤ 1 → lower ≤ eam.nr - 1 →
      (pairSplineIndex eam r).1 = specClampIndex (r * eam.rdr) lower eam.nr ∧
      (pairSplineIndex eam r).2 = specFraction (r * eam.rdr) (pairSplineIndex eam r).1) ∧
    (∀ rhoi : ℚ, rhoi * eam.rdrho + 1 < 2147483648 →
      (embedSplineIndex eam rhoi).1 = specClampIndex (rhoi * eam.rdrho) 1 eam.nrho ∧
      (embedSplineIndex eam rhoi).2 =
        specFraction (rhoi * eam.rdrho) (embedSplineIndex eam rhoi).1) := by
  have hfrac : ∀ a : ℚ, (if a < 1 then a else 1) = min a 1 := by
    intro a
    simp only [min_def]
    split_ifs <;> linarith
  constructor
  · intro r hr hrdr hrange lower hl1 hl2
    obtain ⟨hm, h1⟩ := pairSplineIndex_fst eam r hr hrdr hrange
    constructor
    · rw [hm]
      simp only [specClampIndex, max_def, min_def]
      split_ifs <;> omega
    · simp only [specFraction]
      rw [← hfrac]
      simp only [pairSplineIndex]
  · intro rhoi hrange
    constructor
    · rw [embedSplineIndex_fst eam rhoi hrange]
      rfl
    · simp only [specFraction]
      rw [← hfrac]
      simp only [embedSplineIndex, MIN, one_mul]

/-- Instance of `eam_spline_clamp`: the pair spline of `exEam` at `r = 3/2` with
lower index `1`. -/
theorem eam_spline_clamp_witness :
    (pairSplineIndex exEam (3 / 2)).1 = specClampIndex (3 / 2 * exEam.rdr) 1 exEam.nr ∧
    (pairSplineIndex exEam (3 / 2)).2 =
      specFraction (3 / 2 * exEam.rdr) (pairSplineIndex exEam (3 / 2)).1 :=
  (eam_spline_clamp exEam).1 (3 / 2) (by norm_num) (by simp [exEam]) (by norm_num [exEam])
    1 (le_refl 1) (by simp [exEam])

/-- C5, as stated, fails where `(int)(r * rdr + 1.0)` leaves the range of `int`: for
the two-bin table `exEamSteep` (`nr = 2`, `rdr = 2 ^ 32`) and the separation `r = 1` the
pair splines are read at index `m = INT_MIN`, below bin `1`, and the offset `m * 7` lies
before the block. -/
theorem eam_spline_index_counterexample :
    (2 : Int) ≤ exEamSteep.nr ∧ (0 : ℚ) ≤ 1 ∧ 0 ≤ exEamSteep.rdr ∧
    (pairSplineIndex exEamSteep 1).1 = INT_MIN ∧
    ¬ (1 ≤ (pairSplineIndex exEamSteep 1).1) ∧
    (pairSplineIndex exEamSteep 1).1 * 7 + 0 < 0 := by
  have hc : cTruncInt ((1 : ℚ) * exEamSteep.rdr + 1) = INT_MIN :=
    cTruncInt_of_large _ (by norm_num [exEamSteep, exEam])
  have hm : (pairSplineIndex exEamSteep 1).1 = INT_MIN := by
    simp only [pairSplineIndex, hc]
    simp [INT_MIN, exEamSteep, exEam]
  refine ⟨by simp [exEamSteep], by norm_num, by norm_num [exEamSteep, exEam], hm, ?_, ?_⟩
  · rw [hm]
    simp [INT_MIN]
  · rw [hm]
    simp [INT_MIN]

/-- C5, as amended.  For a table with `n ≥ 2` bins every index `m` used for a spline
read satisfies `1 ≤ m ≤ n - 1`: for the pair splines at every separation `r ≥ 0` (with
`rdr ≥ 0`) for which `r * rdr + 1 < 2 ^ 31`, so that `(int)(r * rdr + 1.0)` is inside the
range of `int`, and for the embedding spline at every density `rhoi`; hence every
coefficient offset `m * 7 + k`, `0 ≤ k ≤ 6`, lies inside the block of `7 * n`
entries. -/
theorem eam_spline_index_in_table (eam : Eam) :
    (2 ≤ eam.nr → ∀ r : ℚ, 0 ≤ r → 0 ≤ eam.rdr → r * eam.rdr + 1 < 2147483648 →
      1 ≤ (pairSplineIndex eam r).1 ∧ (pairSplineIndex eam r).1 ≤ eam.nr - 1 ∧
      ∀ k : Int, 0 ≤ k → k ≤ 6 →
        0 ≤ (pairSplineIndex eam r).1 * 7 + k ∧ (pairSplineIndex eam r).1 * 7 + k < 7 * eam.nr) ∧
    (2 ≤ eam.nrho → ∀ rhoi : ℚ,
      1 ≤ (embedSplineIndex eam rhoi).1 ∧ (embedSplineIndex eam rhoi).1 ≤ eam.nrho - 1 ∧
      ∀ k : Int, 0 ≤ k → k ≤ 6 →
        0 ≤ (embedSplineIndex eam rhoi).1 * 7 + k ∧
          (embedSplineIndex eam rhoi).1 * 7 + k < 7 * eam.nrho) := by
  constructor
  · intro hn r hr hrdr hrange
    obtain ⟨hm, h1⟩ := pairSplineIndex_fst eam r hr hrdr hrange
    have hlo : 1 ≤ (pairSplineIndex eam r).1 := by
      rw [hm]
      exact le_min h1 (by omega)
    have hhi : (pairSplineIndex eam r).1 ≤ eam.nr - 1 := by
      rw [hm]
      exact min_le_right _ _
    exact ⟨hlo, hhi, fun k hk0 hk6 => ⟨by omega, by omega⟩⟩
  · intro hn rhoi
    obtain ⟨hlo, hhi⟩ := embedSplineIndex_bounds eam rhoi hn
    exact ⟨hlo, hhi, fun k hk0 hk6 => ⟨by omega, by omega⟩⟩

/-- Instance of `eam_spline_index_in_table`: the pair spline of `exEam` at the
separation `r = 30`, beyond the last bin. -/
theorem eam_spline_index_in_table_witness :
    1 ≤ (pairSplineIndex exEam 30).1 ∧ (pairSplineIndex exEam 30).1 ≤ exEam.nr - 1 ∧
      ∀ k : Int, 0 ≤ k → k ≤ 6 →
        0 ≤ (pairSplineIndex exEam 30).1 * 7 + k ∧
          (pairSplineIndex exEam 30).1 * 7 + k < 7 * exEam.nr :=
  (eam_spline_index_in_table exEam).1 (by simp [exEam]) 30 (by norm_num)
    (by norm_num [exEam]) (by norm_num [exEam])

/-! ## Pass 2 of `computeForceEam` -/

/-- Pass 2 does not read the force arrays. -/
theorem eamForceAcc_forces (b : Build) (param : Parameter) (atom : Atom) (neighbor : Neighbor)
    (eam : Eam) (sqrt : ℚ → ℚ) (fp : Nat → ℚ) (i : Nat) (gx gy gz : Nat → ℚ) :
    eamForceAcc b param { atom with fx := gx, fy := gy, fz := gz } neighbor eam sqrt fp i =
      eamForceAcc b param atom neighbor eam sqrt fp i := rfl

/-- Pass 2 reads neither the stored `fp` array of the record nor its capacity. -/
theorem eamForceAcc_realloc (b : Build) (param : Parameter) (atom : Atom) (neighbor : Neighbor)
    (eam : Eam) (sqrt : ℚ → ℚ) (fp : Nat → ℚ) (i N : Nat) (f : Nat → ℚ) :
    eamForceAcc b param atom neighbor { eam with nmax := N, fp := f } sqrt fp i =
      eamForceAcc b param atom neighbor eam sqrt fp i := rfl

/-- The accumulators of pass 2 are the sums of the pair terms. -/
theorem eamForceAcc_eq_sum (b : Build) (param : Parameter) (atom : Atom) (neighbor : Neighbor)
    (eam : Eam) (sqrt : ℚ → ℚ) (fp : Nat → ℚ) (i : Nat) :
    eamForceAcc b param atom neighbor eam sqrt fp i =
      (∑ k in Finset.range (neighbor.numneigh i),
          (eamPairTerm b param atom neighbor eam sqrt fp i k).1,
       ∑ k in Finset.range (neighbor.numneigh i),
          (eamPairTerm b param atom neighbor eam sqrt fp i k).2.1,
       ∑ k in Finset.range (neighbor.numneigh i),
          (eamPairTerm b param atom neighbor eam sqrt fp i k).2.2) := by
  unfold eamForceAcc
  generalize neighbor.numneigh i = n
  induction n with
  | zero => simp [forUpTo]
  | succ n ih =>
    simp only [forUpTo, Finset.sum_range_succ]
    rw [ih]
    simp only [eamForceStep, eamPairTerm]
    split_ifs <;> simp

/-- Closed form of pass 2: owned slots below the bound are overwritten with the
accumulators, the counters grow, nothing else changes. -/
theorem eamPass2_eq (b : Build) (param : Parameter) (neighbor : Neighbor) (eam : Eam)
    (sqrt : ℚ → ℚ) (fp : Nat → ℚ) (atom : Atom) (stats : Stats) (n : Nat) :
    eamPass2 b param neighbor eam sqrt fp n (atom, stats) =
      ({ atom with
          fx := fun i => if i < n then (eamForceAcc b param atom neighbor eam sqrt fp i).1
            else atom.fx i
          fy := fun i => if i < n then (eamForceAcc b param atom neighbor eam sqrt fp i).2.1
            else atom.fy i
          fz := fun i => if i < n then (eamForceAcc b param atom neighbor eam sqrt fp i).2.2
            else atom.fz i },
       { total_force_neighs := statAfter b stats.total_force_neighs neighbor.numneigh n
         total_force_iters := statAfter b stats.total_force_iters
           (fun i => (neighbor.numneigh i + b.VECTOR_WIDTH - 1) / b.VECTOR_WIDTH) n }) := by
  induction n with
  | zero => simp [eamPass2, forUpTo, statAfter]
  | succ n ih =>
    unfold eamPass2 at ih ⊢
    simp only [forUpTo, ih, eamForceAcc_forces]
    refine Prod.ext ?_ ?_
    · simp only
      congr 1 <;>
      · funext i
        by_cases h : i = n
        · subst h; simp
        · have h1 : (i < n + 1) = (i < n) := by
            apply propext
            constructor <;> intro hh <;> omega
          simp [Function.update, h, h1]
    · simp only [statAfter, addStat, Finset.sum_range_succ]
      cases b.COMPUTE_STATS <;> simp [add_assoc]

/-- Closed form of `computeForceEam` on the particle store and the counters. -/
theorem computeForceEam_eq (b : Build) (param : Parameter) (atom : Atom) (neighbor : Neighbor)
    (stats : Stats) (eam : Eam) (sqrt : ℚ → ℚ) (fresh : Nat → ℚ) :
    (computeForceEam b param atom neighbor stats eam sqrt fresh).1 =
      { atom with
        fx := fun i => if i < atom.Nlocal then (eamForceAcc b param atom neighbor eam sqrt
            (computeForceEam b param atom neighbor stats eam sqrt fresh).2.2.fp i).1
          else atom.fx i
        fy := fun i => if i < atom.Nlocal then (eamForceAcc b param atom neighbor eam sqrt
            (computeForceEam b param atom neighbor stats eam sqrt fresh).2.2.fp i).2.1
          else atom.fy i
        fz := fun i => if i < atom.Nlocal then (eamForceAcc b param atom neighbor eam sqrt
            (computeForceEam b param atom neighbor stats eam sqrt fresh).2.2.fp i).2.2
          else atom.fz i } ∧
    (computeForceEam b param atom neighbor stats eam sqrt fresh).2.1 =
      { total_force_neighs := statAfter b stats.total_force_neighs neighbor.numneigh atom.Nlocal
        total_force_iters := statAfter b stats.total_force_iters
          (fun i => (neighbor.numneigh i + b.VECTOR_WIDTH - 1) / b.VECTOR_WIDTH) atom.Nlocal } := by
  simp only [computeForceEam, eamPass2_eq]
  by_cases h : eam.nmax < atom.Nmax
  · simp only [h, if_true, eamForceAcc_realloc, and_self]
  · simp only [h, if_false, and_self]

/-! ## The pair coefficient of pass 2 -/

/-- The embedding derivatives that pass 1 computes on the two-type input. -/
theorem exEam2_embed :
    eamEmbed exBuild2 exParam exAtom2 exNeighbor2 exEam2 exSqrt2 0 = 1 ∧
    eamEmbed exBuild2 exParam exAtom2 exNeighbor2 exEam2 exSqrt2 1 = 1 := by
  constructor <;>
  norm_num [eamEmbed, eamDensity, exNeighbor2, forUpTo, eamDensityStep, atom_x, atom_y,
    atom_z, exBuild2, eamCutforcesq, pairSplineIndex, exSqrt2, exEam2, cTruncInt, INT_MIN, INT_MAX,
    eamPairBase, embedSplineIndex, MIN, MAX, eamEmbedBase, exAtom2]

/-- The embedding derivatives that the call on the two-type input leaves in `fp`. -/
theorem exEam2_fp :
    (computeForceEam exBuild2 exParam exAtom2 exNeighbor2 exStats exEam2 exSqrt2
      (fun _ => 0)).2.2.fp 0 = 1 ∧
    (computeForceEam exBuild2 exParam exAtom2 exNeighbor2 exStats exEam2 exSqrt2
      (fun _ => 0)).2.2.fp 1 = 1 := by
  have hG : exAtom2.Nghost = 0 := rfl
  have h0 : (0 : Nat) < exAtom2.Nlocal := by decide
  have h1 : (1 : Nat) < exAtom2.Nlocal := by decide
  rw [computeForceEam_fp]
  simp only [eamCopyGhosts, hG, forUpTo, h0, h1, if_true]
  exact exEam2_embed

theorem ljPairTerm_congr_neighbors (b : Build) (param : Parameter) (atom : Atom)
    (neighbor : Neighbor) (buf : Nat → Nat) (i k : Nat)
    (h : buf (i * neighbor.maxneighs + k) = neighbor.neighbors (i * neighbor.maxneighs + k)) :
    ljPairTerm b param atom { neighbor with neighbors := buf } i k =
      ljPairTerm b param atom neighbor i k := by
  simp only [ljPairTerm, h]

/-- The scalar loop of particle `i` reads only the first `numneigh[i]` slots of its list. -/
theorem ljScalarLoop_congr_neighbors (b : Build) (param : Parameter) (atom : Atom)
    (neighbor : Neighbor) (buf : Nat → Nat) (i : Nat)
    (h : ∀ p, p < neighbor.numneigh i →
      buf (i * neighbor.maxneighs + p) = neighbor.neighbors (i * neighbor.maxneighs + p)) :
    ljScalarLoop b param atom { neighbor with neighbors := buf } i =
      ljScalarLoop b param atom neighbor i := by
  rw [ljScalarLoop_eq_sum, ljScalarLoop_eq_sum]
  have hterm : ∀ k ∈ Finset.range (neighbor.numneigh i),
      ljPairTerm b param atom { neighbor with neighbors := buf } i k =
        ljPairTerm b param atom neighbor i k := fun k hk =>
    ljPairTerm_congr_neighbors b param atom neighbor buf i k (h k (Finset.mem_range.mp hk))
  refine Prod.ext ?_ (Prod.ext ?_ ?_) <;>
  · simp only
    exact Finset.sum_congr rfl (fun k hk => by rw [hterm k hk])

/-- C7 (masked lanes contribute zero).  In every chunk, a lane `l` with
`k + l ≥ numneigh[i]` (padding) or with `rsq ≥ cutforcesq` (distance failure) keeps its
value in `fix`, `fiy` and `fiz`; and the force the kernel stores for owned particle `i`
is the same for every neighbour buffer that agrees with the given one on the first
`numneigh[i]` entries of the list of `i`, whatever it holds elsewhere. -/
theorem lj_masked_lanes_contribute_zero (b : Build) (param : Parameter) (atom : Atom)
    (neighbor : Neighbor) (i : Nat) :
    (∀ (neighs : Nat → Nat) (numneighs k l : Nat) (acc : LJAcc),
      (numneighs ≤ k + l ∨
        param.cutforce * param.cutforce ≤ (ljChunkRegs b param atom neighs numneighs i k).rsq l) →
      (ljChunk b param atom neighs numneighs i k acc).fix l = acc.fix l ∧
      (ljChunk b param atom neighs numneighs i k acc).fiy l = acc.fiy l ∧
      (ljChunk b param atom neighs numneighs i k acc).fiz l = acc.fiz l) ∧
    (∀ (fuel : Nat) (buf : Nat → Nat), 1 ≤ b.VECTOR_WIDTH →
      (∀ n, n < atom.Nlocal → neighbor.numneigh n ≤ fuel) → i < atom.Nlocal →
      (∀ p, p < neighbor.numneigh i →
        buf (i * neighbor.maxneighs + p) = neighbor.neighbors (i * neighbor.maxneighs + p)) →
      ∃ a a', computeForceLJFullNeigh_simd b param atom neighbor fuel = some a ∧
        computeForceLJFullNeigh_simd b param atom { neighbor with neighbors := buf } fuel =
          some a' ∧
        a'.fx i = a.fx i ∧ a'.fy i = a.fy i ∧ a'.fz i = a.fz i) := by
  constructor
  · intro neighs numneighs k l acc h
    have hmask : (ljChunkRegs b param atom neighs numneighs i k).cutoff_mask l =
        (decide (k + l < numneighs) &&
          decide ((ljChunkRegs b param atom neighs numneighs i k).rsq l <
            param.cutforce * param.cutforce)) := rfl
    have hoff : (ljChunkRegs b param atom neighs numneighs i k).cutoff_mask l = false := by
      rw [hmask]
      rcases h with h | h
      · have : ¬ k + l < numneighs := by omega
        simp [this]
      · have : ¬ (ljChunkRegs b param atom neighs numneighs i k).rsq l <
            param.cutforce * param.cutforce := not_lt.mpr h
        simp [this]
    simp only [ljChunk, simd_real_masked_add, hoff, Bool.false_eq_true, if_false, and_self]
  · intro fuel buf hW hfuel hi hbuf
    refine ⟨_, _, lj_kernel_eq b param atom neighbor fuel hW hfuel,
      lj_kernel_eq b param atom { neighbor with neighbors := buf } fuel hW hfuel, ?_⟩
    simp only [hi, if_true, ljScalarLoop_congr_neighbors b param atom neighbor buf i hbuf,
      and_self]

/-- Instance of `lj_masked_lanes_contribute_zero`: particle 1 of `exAtom` with the
buffer of `exNeighborPadded`, which differs from `exNeighbor` only past the lists. -/
theorem lj_masked_lanes_contribute_zero_witness :
    ∃ a a', computeForceLJFullNeigh_simd exBuild exParam exAtom exNeighbor 2 = some a ∧
      computeForceLJFullNeigh_simd exBuild exParam exAtom
        { exNeighbor with neighbors := exNeighborPadded.neighbors } 2 = some a' ∧
      a'.fx 1 = a.fx 1 ∧ a'.fy 1 = a.fy 1 ∧ a'.fz 1 = a.fz 1 :=
  (lj_masked_lanes_contribute_zero exBuild exParam exAtom exNeighbor 1).2 2
    exNeighborPadded.neighbors (by decide)
    (by
      intro n _
      simp only [exNeighbor]
      split_ifs <;> omega)
    (by decide)
    (by
      intro p hp
      have hp2 : p < 2 := by simpa [exNeighbor] using hp
      interval_cases p <;> simp [exNeighbor, exNeighborPadded])

/-! ## Empty lists, overwriting, counters -/

/-- C8 (empty neighbour list gives zero force).  For every owned particle `i` with
`numneigh[i] = 0` the three force components stored for `i` are `0` after
`computeForceEam` and after `computeForceLJFullNeigh_simd`, whatever the positions and
whatever the force arrays held before the call. -/
theorem empty_list_zero_force (b : Build) (param : Parameter) (atom : Atom)
    (neighbor : Neighbor) (stats : Stats) (eam : Eam) (sqrt : ℚ → ℚ) (fresh : Nat → ℚ)
    (i : Nat) (hi : i < atom.Nlocal) (h0 : neighbor.numneigh i = 0) :
    ((computeForceEam b param atom neighbor stats eam sqrt fresh).1.fx i = 0 ∧
      (computeForceEam b param atom neighbor stats eam sqrt fresh).1.fy i = 0 ∧
      (computeForceEam b param atom neighbor stats eam sqrt fresh).1.fz i = 0) ∧
    (∀ fuel : Nat, 1 ≤ b.VECTOR_WIDTH →
      (∀ n, n < atom.Nlocal → neighbor.numneigh n ≤ fuel) →
      ∃ a, computeForceLJFullNeigh_simd b param atom neighbor fuel = some a ∧
        a.fx i = 0 ∧ a.fy i = 0 ∧ a.fz i = 0) := by
  constructor
  · rw [(computeForceEam_eq b param atom neighbor stats eam sqrt fresh).1]
    simp [hi, eamForceAcc, h0, forUpTo]
  · intro fuel hW hfuel
    refine ⟨_, lj_kernel_eq b param atom neighbor fuel hW hfuel, ?_⟩
    simp [hi, ljScalarLoop, h0, forUpTo]

/-- Instance of `empty_list_zero_force`: particle 0 of `exAtom`, whose force slots hold
`1` before the call, with empty lists. -/
theorem empty_list_zero_force_witness :
    ((computeForceEam exBuild exParam exAtom exNoNeighbor exStats exEam exSqrt
        (fun _ => 0)).1.fx 0 = 0 ∧
      (computeForceEam exBuild exParam exAtom exNoNeighbor exStats exEam exSqrt
        (fun _ => 0)).1.fy 0 = 0 ∧
      (computeForceEam exBuild exParam exAtom exNoNeighbor exStats exEam exSqrt
        (fun _ => 0)).1.fz 0 = 0) ∧
    ∃ a, computeForceLJFullNeigh_simd exBuild exParam exAtom exNoNeighbor 0 = some a ∧
      a.fx 0 = 0 ∧ a.fy 0 = 0 ∧ a.fz 0 = 0 :=
  have h := empty_list_zero_force exBuild exParam exAtom exNoNeighbor exStats exEam exSqrt
    (fun _ => 0) 0 (by decide) rfl
  ⟨h.1, h.2 0 (by decide) (fun _ _ => le_refl 0)⟩

/-- C9, as stated, fails: on `exAtom`, whose force slots hold `1`, with empty lists
(so that the pair contributions of the call sum to `0`), both kernels leave `0` in the
slot of particle 0, not `1 + 0`. -/
theorem kernels_accumulate_counterexample :
    (∃ a, computeForceLJFullNeigh_simd exBuild exParam exAtom exNoNeighbor 0 = some a ∧
      (ljScalarLoop exBuild exParam exAtom exNoNeighbor 0).1 = 0 ∧
      a.fx 0 ≠ exAtom.fx 0 + (ljScalarLoop exBuild exParam exAtom exNoNeighbor 0).1) ∧
    (eamForceAcc exBuild exParam exAtom exNoNeighbor exEam exSqrt
        (computeForceEam exBuild exParam exAtom exNoNeighbor exStats exEam exSqrt
          (fun _ => 0)).2.2.fp 0).1 = 0 ∧
    (computeForceEam exBuild exParam exAtom exNoNeighbor exStats exEam exSqrt
        (fun _ => 0)).1.fx 0 ≠
      exAtom.fx 0 + (eamForceAcc exBuild exParam exAtom exNoNeighbor exEam exSqrt
        (computeForceEam exBuild exParam exAtom exNoNeighbor exStats exEam exSqrt
          (fun _ => 0)).2.2.fp 0).1 := by
  have hN : (0 : Nat) < exAtom.Nlocal := by decide
  have hS : ljScalarLoop exBuild exParam exAtom exNoNeighbor 0 = (0, 0, 0) := rfl
  have hA : ∀ fp, eamForceAcc exBuild exParam exAtom exNoNeighbor exEam exSqrt fp 0 =
      (0, 0, 0) := fun _ => rfl
  have hf : exAtom.fx 0 = 1 := rfl
  refine ⟨⟨_, lj_kernel_eq exBuild exParam exAtom exNoNeighbor 0 (by decide)
    (fun _ _ => le_refl 0), by rw [hS], ?_⟩, by rw [hA], ?_⟩
  · simp only [hN, if_true, hS, hf]
    norm_num
  · rw [(computeForceEam_eq exBuild exParam exAtom exNoNeighbor exStats exEam exSqrt
      (fun _ => 0)).1]
    simp only [hN, if_true, hA, hf]
    norm_num

/-- C9, as amended.  Both kernels overwrite: whatever the force arrays `gx`, `gy`, `gz`
hold before the call, the force stored for every owned particle `i` after
`computeForceEam`, and after `computeForceLJFullNeigh_simd`, equals the sum of the pair
contributions computed by that call; the kernels clear the slot themselves. -/
theorem kernels_overwrite_forces (b : Build) (param : Parameter) (atom : Atom)
    (neighbor : Neighbor) (stats : Stats) (eam : Eam) (sqrt : ℚ → ℚ) (fresh : Nat → ℚ)
    (gx gy gz : Nat → ℚ) (i : Nat) (hi : i < atom.Nlocal) :
    ((computeForceEam b param { atom with fx := gx, fy := gy, fz := gz } neighbor stats eam
        sqrt fresh).1.fx i =
        ∑ k in Finset.range (neighbor.numneigh i), (eamPairTerm b param atom neighbor eam sqrt
          (computeForceEam b param atom neighbor stats eam sqrt fresh).2.2.fp i k).1 ∧
      (computeForceEam b param { atom with fx := gx, fy := gy, fz := gz } neighbor stats eam
        sqrt fresh).1.fy i =
        ∑ k in Finset.range (neighbor.numneigh i), (eamPairTerm b param atom neighbor eam sqrt
          (computeForceEam b param atom neighbor stats eam sqrt fresh).2.2.fp i k).2.1 ∧
      (computeForceEam b param { atom with fx := gx, fy := gy, fz := gz } neighbor stats eam
        sqrt fresh).1.fz i =
        ∑ k in Finset.range (neighbor.numneigh i), (eamPairTerm b param atom neighbor eam sqrt
          (computeForceEam b param atom neighbor stats eam sqrt fresh).2.2.fp i k).2.2) ∧
    (∀ fuel : Nat, 1 ≤ b.VECTOR_WIDTH →
      (∀ n, n < atom.Nlocal → neighbor.numneigh n ≤ fuel) →
      ∃ a, computeForceLJFullNeigh_simd b param { atom with fx := gx, fy := gy, fz := gz }
          neighbor fuel = some a ∧
        a.fx i = ∑ k in Finset.range (neighbor.numneigh i),
          (ljPairTerm b param atom neighbor i k).1 ∧
        a.fy i = ∑ k in Finset.range (neighbor.numneigh i),
          (ljPairTerm b param atom neighbor i k).2.1 ∧
        a.fz i = ∑ k in Finset.range (neighbor.numneigh i),
          (ljPairTerm b param atom neighbor i k).2.2) := by
  constructor
  · have hfp : (computeForceEam b param { atom with fx := gx, fy := gy, fz := gz } neighbor
        stats eam sqrt fresh).2.2.fp =
        (computeForceEam b param atom neighbor stats eam sqrt fresh).2.2.fp := rfl
    rw [(computeForceEam_eq b param { atom with fx := gx, fy := gy, fz := gz } neighbor stats
      eam sqrt fresh).1]
    simp only [hi, if_true, hfp, eamForceAcc_forces]
    simp only [eamForceAcc_eq_sum, and_self]
  · intro fuel hW hfuel
    refine ⟨_, lj_kernel_eq b param { atom with fx := gx, fy := gy, fz := gz } neighbor fuel
      hW hfuel, ?_⟩
    have hS : ljScalarLoop b param { atom with fx := gx, fy := gy, fz := gz } neighbor i =
        ljScalarLoop b param atom neighbor i := rfl
    simp only [hi, if_true, hS, ljScalarLoop_eq_sum, and_self]

/-- Instance of `kernels_overwrite_forces`: particle 0 of `exAtom` with every force slot
set to `7` before the call. -/
theorem kernels_overwrite_forces_witness :
    ∃ a, computeForceLJFullNeigh_simd exBuild exParam
        { exAtom with fx := fun _ => 7, fy := fun _ => 7, fz := fun _ => 7 }
        exNeighbor 2 = some a ∧
      a.fx 0 = ∑ k in Finset.range (exNeighbor.numneigh 0),
        (ljPairTerm exBuild exParam exAtom exNeighbor 0 k).1 ∧
      a.fy 0 = ∑ k in Finset.range (exNeighbor.numneigh 0),
        (ljPairTerm exBuild exParam exAtom exNeighbor 0 k).2.1 ∧
      a.fz 0 = ∑ k in Finset.range (exNeighbor.numneigh 0),
        (ljPairTerm exBuild exParam exAtom exNeighbor 0 k).2.2 :=
  (kernels_overwrite_forces exBuild exParam exAtom exNeighbor exStats exEam exSqrt (fun _ => 0)
    (fun _ => 7) (fun _ => 7) (fun _ => 7) 0 (by decide)).2 2 (by decide)
    (by
      intro n _
      simp only [exNeighbor]
      split_ifs <;> omega)

/-! ## The diagnostic counters -/

theorem forUpTo_succ_left {σ : Type} (f : Nat → σ → σ) (c : Nat) (s : σ) :
    forUpTo f (c + 1) s = forUpTo (fun t => f (t + 1)) c (f 0 s) := by
  induction c with
  | zero => rfl
  | succ c ih =>
    have h : forUpTo f (c + 1 + 1) s = f (c + 1) (forUpTo f (c + 1) s) := rfl
    rw [h, ih]
    rfl

/-- One more chunk is needed when the list position `k` is still inside the list. -/
theorem chunk_count_step (W n k : Nat) (hW : 1 ≤ W) (hk : k < n) :
    (n - k + W - 1) / W = (n - (k + W) + W - 1) / W + 1 := by
  have h1 : n - k + W - 1 = (n - k - 1) + W := by omega
  rw [h1, Nat.add_div_right _ (by omega : 0 < W)]
  congr 1
  by_cases h : k + W ≤ n
  · congr 1
    omega
  · have h2 : n - (k + W) + W - 1 = W - 1 := by omega
    rw [h2, Nat.div_eq_of_lt (by omega), Nat.div_eq_of_lt (by omega)]

/-- With `W ≥ 1` the strided loop from `k` runs its body exactly
`(n - k + W - 1) / W` times, at the offsets `k, k + W, k + 2 W, ...`. -/
theorem strideLoop_eq_forUpTo {σ : Type} (W n : Nat) (body : Nat → σ → σ) (hW : 1 ≤ W) :
    ∀ (fuel k : Nat) (s : σ), n ≤ k + fuel * W →
      strideLoop W n body fuel k s =
        some (forUpTo (fun t => body (k + t * W)) ((n - k + W - 1) / W) s) := by
  have hdone : ∀ k, ¬ k < n → (n - k + W - 1) / W = 0 := by
    intro k hk
    have : n - k + W - 1 = W - 1 := by omega
    rw [this]
    exact Nat.div_eq_of_lt (by omega)
  intro fuel
  induction fuel with
  | zero =>
    intro k s h
    have hk : ¬ k < n := by omega
    simp [strideLoop, hk, hdone k hk, forUpTo]
  | succ f ih =>
    intro k s h
    by_cases hk : k < n
    · have h2 : n ≤ (k + W) + f * W := by
        have : (f + 1) * W = f * W + W := by ring
        omega
      simp only [strideLoop, hk, if_true]
      rw [ih (k + W) (body k s) h2, chunk_count_step W n k hW hk, forUpTo_succ_left]
      simp only [Nat.zero_mul, Nat.add_zero]
      congr 2
      funext t
      have ht : k + W + t * W = k + (t + 1) * W := by ring
      rw [ht]
    · simp [strideLoop, hk, hdone k hk, forUpTo]

theorem forUpTo_count (c : Nat) : forUpTo (fun _ (m : Nat) => m + 1) c 0 = c := by
  induction c with
  | zero => rfl
  | succ c ih =>
    show forUpTo (fun _ (m : Nat) => m + 1) c 0 + 1 = c + 1
    rw [ih]

/-- C10 (diagnostic counters).  With statistics enabled, one call of `computeForceEam`
adds to `total_force_neighs` the sum over the owned particles of `numneigh[i]` and to
`total_force_iters` the sum of `(numneigh[i] + VECTOR_WIDTH - 1) / VECTOR_WIDTH`; and
for every `numneighs` and `VECTOR_WIDTH ≥ 1` that quotient is the number of iterations
of `for (k = 0; k < numneighs; k += VECTOR_WIDTH)`, the chunk loop of
`computeForceLJFullNeigh_simd`, which runs its body that many times. -/
theorem eam_diagnostic_counters (b : Build) (param : Parameter) (atom : Atom)
    (neighbor : Neighbor) (stats : Stats) (eam : Eam) (sqrt : ℚ → ℚ) (fresh : Nat → ℚ)
    (hstat : b.COMPUTE_STATS = true) :
    (computeForceEam b param atom neighbor stats eam sqrt fresh).2.1.total_force_neighs =
      stats.total_force_neighs + ∑ i in Finset.range atom.Nlocal, neighbor.numneigh i ∧
    (computeForceEam b param atom neighbor stats eam sqrt fresh).2.1.total_force_iters =
      stats.total_force_iters + ∑ i in Finset.range atom.Nlocal,
        (neighbor.numneigh i + b.VECTOR_WIDTH - 1) / b.VECTOR_WIDTH ∧
    (∀ numneighs W fuel : Nat, 1 ≤ W → numneighs ≤ fuel →
      strideLoopIters W numneighs fuel = some ((numneighs + W - 1) / W)) ∧
    (∀ fuel i : Nat, 1 ≤ b.VECTOR_WIDTH → neighbor.numneigh i ≤ fuel →
      ljLanes b param atom neighbor fuel i = some
        (forUpTo (fun t => ljChunk b param atom
            (fun p => neighbor.neighbors (i * neighbor.maxneighs + p)) (neighbor.numneigh i) i
            (t * b.VECTOR_WIDTH))
          ((neighbor.numneigh i + b.VECTOR_WIDTH - 1) / b.VECTOR_WIDTH)
          { fix := simd_real_zero, fiy := simd_real_zero, fiz := simd_real_zero })) := by
  have hcover : ∀ n W fuel : Nat, 1 ≤ W → n ≤ fuel → n ≤ 0 + fuel * W := by
    intro n W fuel hW hn
    have : fuel * 1 ≤ fuel * W := Nat.mul_le_mul_left fuel hW
    omega
  refine ⟨?_, ?_, ?_, ?_⟩
  · rw [(computeForceEam_eq b param atom neighbor stats eam sqrt fresh).2]
    simp [statAfter, hstat]
  · rw [(computeForceEam_eq b param atom neighbor stats eam sqrt fresh).2]
    simp [statAfter, hstat]
  · intro n W fuel hW hn
    simp only [strideLoopIters]
    rw [strideLoop_eq_forUpTo W n _ hW fuel 0 0 (hcover n W fuel hW hn), forUpTo_count]
    simp
  · intro fuel i hW hn
    simp only [ljLanes]
    rw [strideLoop_eq_forUpTo b.VECTOR_WIDTH _ _ hW fuel 0 _ (hcover _ _ fuel hW hn)]
    simp

/-- Instance of `eam_diagnostic_counters` on `exAtom` (lists of length 1 and 2, four
lanes, counters starting at 10 and 20). -/
theorem eam_diagnostic_counters_witness :
    (computeForceEam exBuild exParam exAtom exNeighbor exStats exEam exSqrt
        (fun _ => 0)).2.1.total_force_neighs =
      exStats.total_force_neighs + ∑ i in Finset.range exAtom.Nlocal, exNeighbor.numneigh i ∧
    (computeForceEam exBuild exParam exAtom exNeighbor exStats exEam exSqrt
        (fun _ => 0)).2.1.total_force_iters =
      exStats.total_force_iters + ∑ i in Finset.range exAtom.Nlocal,
        (exNeighbor.numneigh i + exBuild.VECTOR_WIDTH - 1) / exBuild.VECTOR_WIDTH :=
  have h := eam_diagnostic_counters exBuild exParam exAtom exNeighbor exStats exEam exSqrt
    (fun _ => 0) rfl
  ⟨h.1, h.2.1⟩

/-! ## The reneighbour schedule of the time loop -/

/-- With nonzero divisors a step of the time loop is not stopped. -/
theorem timeStep_done (d : DriverBuild) (p : RunParam) (n : Nat)
    (hr : p.reneigh_every ≠ 0) (hp : p.prune_every ≠ 0) (hs : p.nstat ≠ 0)
    (hx : p.x_out_every ≠ 0) (hv : p.v_out_every ≠ 0) :
    timeStep d p n = Outcome.done (timeStep d p n).calls := by
  simp only [timeStep, hr, hp, hs, hx, hv, and_false, or_self, if_false, Outcome.calls]

/-- The schedule calls of one step that is not stopped: the rebuild alone on a multiple
of `reneigh_every`, otherwise the incremental update, after a prune on a multiple of
`prune_every`; the force computation follows once. -/
theorem timeStep_schedule (d : DriverBuild) (p : RunParam) (n : Nat)
    (hr : p.reneigh_every ≠ 0) (hp : p.prune_every ≠ 0) (hs : p.nstat ≠ 0)
    (hx : p.x_out_every ≠ 0) (hv : p.v_out_every ≠ 0) :
    (timeStep d p n).calls.filter isScheduleCall =
      if p.reneigh_every ∣ (n : Int) + 1 then [Call.reneighbour, Call.computeForce]
      else if p.prune_every ∣ (n : Int) + 1 then
        [Call.pruneNeighbor, Call.updatePbc, Call.computeForce]
      else [Call.updatePbc, Call.computeForce] := by
  have hr' : (Int.tmod ((n : Int) + 1) p.reneigh_every ≠ 0) =
      ¬ (p.reneigh_every ∣ (n : Int) + 1) := by
    rw [Int.dvd_iff_tmod_eq_zero]
  have hp' : (Int.tmod ((n : Int) + 1) p.prune_every = 0) =
      (p.prune_every ∣ (n : Int) + 1) := by
    rw [Int.dvd_iff_tmod_eq_zero]
  have h1 : ∀ c : Bool, (if c then [Call.copyDataFromCUDADevice] else []).filter
      isScheduleCall = [] := by
    intro c; cases c <;> rfl
  have h2 : ∀ c : Bool, (if c then [Call.copyDataToCUDADevice] else []).filter
      isScheduleCall = [] := by
    intro c; cases c <;> rfl
  have h3 : ∀ c : Bool, (if c then [Call.traceAddresses] else []).filter
      isScheduleCall = [] := by
    intro c; cases c <;> rfl
  have h4 : (if Int.tmod ((n : Int) + 1) p.nstat = 0 ∧ (n : Int) + 1 < p.ntimes then
      [Call.computeThermo ((n : Int) + 1)] else []).filter isScheduleCall = [] := by
    split <;> rfl
  have h5 : (if Int.tmod ((n : Int) + 1) p.x_out_every = 0 ∨
        Int.tmod ((n : Int) + 1) p.v_out_every = 0 then
      (if p.vtk_file then [Call.write_data_to_vtk_file (n + 1)] else []) ++
      (if p.xtc_file then [Call.xtc_write (n + 1)] else [])
      else []).filter isScheduleCall = [] := by
    split
    · cases p.vtk_file <;> cases p.xtc_file <;> rfl
    · rfl
  simp only [timeStep, hr, hp, hs, hx, hv, and_false, or_self, if_false, Outcome.calls,
    List.filter_append, h3, h4, h5, hr', hp', List.append_nil]
  by_cases hdr : p.reneigh_every ∣ (n : Int) + 1
  · simp only [hdr, not_true_eq_false, if_false, if_true, List.filter_append, h1, h2]
    rfl
  · by_cases hdp : p.prune_every ∣ (n : Int) + 1
    · simp only [hdr, hdp, not_false_eq_true, if_true, if_false]
      rfl
    · simp only [hdr, hdp, not_false_eq_true, if_true, if_false]
      rfl

theorem mem_schedule_filter (c : Call) (hc : isScheduleCall c = true) (l : List Call) :
    c ∈ l ↔ c ∈ l.filter isScheduleCall := by
  rw [List.mem_filter]
  exact ⟨fun h => ⟨h, hc⟩, fun h => h.1⟩

theorem count_schedule_filter (c : Call) (hc : isScheduleCall c = true) (l : List Call) :
    l.count c = (l.filter isScheduleCall).count c := by
  induction l with
  | nil => rfl
  | cons e l ih =>
    by_cases he : isScheduleCall e = true
    · rw [List.filter_cons_of_pos he, List.count_cons, List.count_cons, ih]
    · have hne : (e == c) = false := by
        apply beq_false_of_ne
        intro h
        exact he (h ▸ hc)
      rw [List.filter_cons_of_neg he, List.count_cons, ih, hne]
      simp

/-- A step that is not stopped calls `reneighbour` once on a multiple of
`reneigh_every`, never otherwise. -/
theorem timeStep_count_reneighbour (d : DriverBuild) (p : RunParam) (n : Nat)
    (hr : p.reneigh_every ≠ 0) (hp : p.prune_every ≠ 0) (hs : p.nstat ≠ 0)
    (hx : p.x_out_every ≠ 0) (hv : p.v_out_every ≠ 0) :
    (timeStep d p n).calls.count Call.reneighbour =
      if p.reneigh_every ∣ (n : Int) + 1 then 1 else 0 := by
  rw [count_schedule_filter Call.reneighbour rfl, timeStep_schedule d p n hr hp hs hx hv]
  split_ifs <;> decide

/-- With nonzero divisors the time loop completes, having run its steps in order. -/
theorem timeLoop_done (d : DriverBuild) (p : RunParam)
    (hr : p.reneigh_every ≠ 0) (hp : p.prune_every ≠ 0) (hs : p.nstat ≠ 0)
    (hx : p.x_out_every ≠ 0) (hv : p.v_out_every ≠ 0) (m : Nat) :
    timeLoop d p m =
      Outcome.done ((List.range m).flatMap (fun n => (timeStep d p n).calls)) := by
  induction m with
  | zero => rfl
  | succ m ih =>
    rw [timeLoop, ih, timeStep_done d p m hr hp hs hx hv]
    simp [List.range_succ, Outcome.calls]

/-- The first `m` steps of a loop with nonzero divisors rebuild `m / reneigh_every`
times. -/
theorem timeLoop_count_reneighbour (d : DriverBuild) (p : RunParam) (r : Nat)
    (hr : p.reneigh_every = (r : Int)) (hr1 : 1 ≤ r) (hp : p.prune_every ≠ 0)
    (hs : p.nstat ≠ 0) (hx : p.x_out_every ≠ 0) (hv : p.v_out_every ≠ 0) (m : Nat) :
    ((List.range m).flatMap (fun n => (timeStep d p n).calls)).count Call.reneighbour =
      m / r := by
  have hr0 : p.reneigh_every ≠ 0 := by
    rw [hr]
    exact_mod_cast Nat.one_le_iff_ne_zero.mp hr1
  have hdvd : ∀ e : Nat, (p.reneigh_every ∣ (e : Int) + 1) ↔ r ∣ e + 1 := by
    intro e
    rw [hr, ← Int.natCast_dvd_natCast]
    push_cast
    rfl
  have h : ((List.range m).flatMap (fun n => (timeStep d p n).calls)).count Call.reneighbour =
      ((Finset.range m).filter (fun e => r ∣ e + 1)).card := by
    induction m with
    | zero => rfl
    | succ m ih =>
      simp only [List.range_succ, List.flatMap_append, List.flatMap_cons, List.flatMap_nil,
        List.append_nil, List.count_append, ih,
        timeStep_count_reneighbour d p m hr0 hp hs hx hv, hdvd, Finset.range_succ]
      by_cases hd : r ∣ m + 1
      · rw [Finset.filter_insert, if_pos hd, if_pos hd,
          Finset.card_insert_of_not_mem (by simp)]
      · rw [Finset.filter_insert, if_neg hd, if_neg hd, Nat.add_zero]
  rw [h, Nat.card_multiples]

/-- C11, as stated, fails: the claim's conditions `ntimes ≥ 0`, `reneigh_every ≥ 1`,
`prune_every ≥ 1` leave `nstat` free, and with `nstat = 0` (three steps, a rebuild on
every step) the remainder `(n + 1) % nstat` of line 275 stops the run in step 0, after
one rebuild: steps 1 and 2 make no call, and the run rebuilds once, not
`ntimes / reneigh_every = 3` times. -/
theorem reneighbour_schedule_counterexample :
    0 ≤ exRunNoStat.ntimes ∧ 1 ≤ exRunNoStat.reneigh_every ∧ 1 ≤ exRunNoStat.prune_every ∧
    timeStep exDriver exRunNoStat 0 =
      Outcome.trapped [Call.initialIntegrate, Call.reneighbour, Call.computeForce,
        Call.finalIntegrate] ∧
    main exDriver exRunNoStat =
      Outcome.trapped [Call.initParameter, Call.setup, Call.printParameter,
        Call.computeThermo 0, Call.computeForce, Call.initialIntegrate, Call.reneighbour,
        Call.computeForce, Call.finalIntegrate] ∧
    (main exDriver exRunNoStat).calls.count Call.reneighbour = 1 ∧
    exRunNoStat.ntimes / exRunNoStat.reneigh_every = 3 := by
  decide

/-- C11, as amended.  For `ntimes ≥ 0`, `reneigh_every ≥ 1`, `prune_every ≥ 1` and
nonzero `nstat`, `x_out_every`, `v_out_every`, every step `n < ntimes` of the time loop
of `main` completes, and in it: `reneighbour` is called iff `n + 1` is a multiple of
`reneigh_every`; on every other step `updatePbc` is called instead, preceded by
`pruneNeighbor` iff `n + 1` is a multiple of `prune_every`; neither `pruneNeighbor` nor
`updatePbc` is called on a rebuild step; `computeForce` is called exactly once, after
them; the loop runs the steps `0, ..., ntimes - 1` in order, `main` completes, and the
whole run calls `reneighbour` `ntimes / reneigh_every` times. -/
theorem reneighbour_schedule (d : DriverBuild) (p : RunParam)
    (hn : 0 ≤ p.ntimes) (hr : 1 ≤ p.reneigh_every) (hp : 1 ≤ p.prune_every)
    (hs : p.nstat ≠ 0) (hx : p.x_out_every ≠ 0) (hv : p.v_out_every ≠ 0) :
    (∀ n : Nat, (n : Int) < p.ntimes →
      ∃ calls, timeStep d p n = Outcome.done calls ∧
        calls.filter isScheduleCall =
          (if p.reneigh_every ∣ (n : Int) + 1 then [Call.reneighbour, Call.computeForce]
          else if p.prune_every ∣ (n : Int) + 1 then
            [Call.pruneNeighbor, Call.updatePbc, Call.computeForce]
          else [Call.updatePbc, Call.computeForce]) ∧
        (Call.reneighbour ∈ calls ↔ p.reneigh_every ∣ (n : Int) + 1) ∧
        (Call.updatePbc ∈ calls ↔ ¬ p.reneigh_every ∣ (n : Int) + 1) ∧
        (Call.pruneNeighbor ∈ calls ↔
          ¬ p.reneigh_every ∣ (n : Int) + 1 ∧ p.prune_every ∣ (n : Int) + 1) ∧
        (Call.pruneNeighbor ∈ calls →
          calledBefore Call.pruneNeighbor Call.updatePbc
            (calls.filter isScheduleCall) = true) ∧
        calls.count Call.computeForce = 1 ∧
        (calls.filter isScheduleCall).getLast? = some Call.computeForce) ∧
    timeLoop d p p.ntimes.toNat =
      Outcome.done ((List.range p.ntimes.toNat).flatMap (fun n => (timeStep d p n).calls)) ∧
    ∃ calls, main d p = Outcome.done calls ∧
      ((calls.count Call.reneighbour : Nat) : Int) = p.ntimes / p.reneigh_every := by
  have hr0 : p.reneigh_every ≠ 0 := by omega
  have hp0 : p.prune_every ≠ 0 := by omega
  refine ⟨fun n _ => ⟨(timeStep d p n).calls, timeStep_done d p n hr0 hp0 hs hx hv, ?_⟩,
    timeLoop_done d p hr0 hp0 hs hx hv _, ?_⟩
  · have hf := timeStep_schedule d p n hr0 hp0 hs hx hv
    refine ⟨hf, ?_⟩
    rw [mem_schedule_filter Call.reneighbour rfl, mem_schedule_filter Call.updatePbc rfl,
      mem_schedule_filter Call.pruneNeighbor rfl, count_schedule_filter Call.computeForce rfl,
      hf]
    by_cases hdr : p.reneigh_every ∣ (n : Int) + 1
    · simp only [hdr, if_true, not_true_eq_false, false_and, iff_false, iff_true]
      decide
    · by_cases hdp : p.prune_every ∣ (n : Int) + 1
      · simp only [hdr, hdp, if_true, if_false, not_false_eq_true, true_and, iff_true,
          iff_false]
        decide
      · simp only [hdr, hdp, if_false, not_false_eq_true, true_and, and_false, iff_true,
          iff_false]
        decide
  · obtain ⟨r, hrr⟩ := Int.eq_ofNat_of_zero_le (le_trans (by decide) hr)
    have hr1 : 1 ≤ r := by omega
    have hc := timeLoop_count_reneighbour d p r hrr hr1 hp0 hs hx hv p.ntimes.toNat
    have hdiv : ((p.ntimes.toNat / r : Nat) : Int) = p.ntimes / p.reneigh_every := by
      rw [Int.ofNat_ediv, Int.toNat_of_nonneg hn, hrr]
    rw [main, timeLoop_done d p hr0 hp0 hs hx hv]
    refine ⟨_, rfl, ?_⟩
    rw [← hdiv, ← hc]
    congr 1
    generalize (List.range p.ntimes.toNat).flatMap (fun n => (timeStep d p n).calls) = tr
    clear hc hdiv hrr hr0 hp0 hn hr hp hs hx hv
    cases hC : d.CUDA_TARGET <;> cases hT : d.TRACER <;> cases hS : d.STATS <;>
      cases hvtk : p.vtk_file <;> cases hxtc : p.xtc_file <;>
      simp only [List.count_append, if_true, if_false, Bool.false_eq_true, List.count_nil,
        Nat.add_zero, Nat.zero_add] <;>
      simp

/-- Instance of `reneighbour_schedule`: ten steps, rebuild every fourth step, prune
every second one, statistics every hundredth step, so the run completes with two
rebuilds. -/
theorem reneighbour_schedule_witness :
    ∃ calls, main exDriver exRun = Outcome.done calls ∧
      ((calls.count Call.reneighbour : Nat) : Int) = exRun.ntimes / exRun.reneigh_every :=
  (reneighbour_schedule exDriver exRun (by decide) (by decide) (by decide) (by decide)
    (by decide) (by decide)).2.2

/-! ## The order of a reneighbor event -/

/-- C12, as stated, fails: in `reneighbour`, and in `setup`, the build steps are not
called in the order `setupPbc, binClusters, buildClusters, defineJClusters,
buildNeighbor`; `buildClusters` is called before `setupPbc`, not after it. -/
theorem reneighbor_order_counterexample :
    reneighbour.filter isBuildStep ≠
      [Call.setupPbc, Call.binClusters, Call.buildClusters, Call.defineJClusters,
        Call.buildNeighbor] ∧
    (setup exRun).filter isBuildStep ≠
      [Call.setupPbc, Call.binClusters, Call.buildClusters, Call.defineJClusters,
        Call.buildNeighbor] ∧
    calledBefore Call.setupPbc Call.buildClusters reneighbour = false ∧
    calledBefore Call.buildClusters Call.setupPbc reneighbour = true ∧
    calledBefore Call.setupPbc Call.buildClusters (setup exRun) = false ∧
    calledBefore Call.buildClusters Call.setupPbc (setup exRun) = true := by
  decide

/-- C12, as amended.  In every reneighbor event of the cluster-pair driver (the build
sequence of `setup`, for every parameter record, and `reneighbour`) the steps are called
in the order cluster-build (`buildClusters`, `defineJClusters`), ghost-replicate
(`setupPbc`), bin (`binClusters`), neighbor-build (`buildNeighbor`): cluster building
precedes ghost replication and the neighbour build is the last of them.  It is the last
call of `reneighbour`; in `setup` only `initDevice` follows it. -/
theorem reneighbor_event_order (p : RunParam) :
    (setup p).filter isBuildStep =
      [Call.buildClusters, Call.defineJClusters, Call.setupPbc, Call.binClusters,
        Call.buildNeighbor] ∧
    reneighbour.filter isBuildStep =
      [Call.buildClusters, Call.defineJClusters, Call.setupPbc, Call.binClusters,
        Call.buildNeighbor] ∧
    calledBefore Call.buildClusters Call.setupPbc (setup p) = true ∧
    calledBefore Call.buildClusters Call.setupPbc reneighbour = true ∧
    reneighbour.getLast? = some Call.buildNeighbor ∧
    (setup p).dropWhile (fun c => c != Call.buildNeighbor) =
      [Call.buildNeighbor, Call.initDevice] := by
  cases hf : p.force_field_eam <;> cases hi : p.input_file <;>
    simp only [setup, hf, hi, if_true, if_false, Bool.false_eq_true] <;> decide

/-! ## The block of the embedding spline -/

/-- C14 on the code, at the two-type input `exAtom2`, `exEam2` (`ntypes = 2`,
`nrho_tot = 70`): for owned particle 1 of type `t = 1` the code reads `frho_spline` at
offset `type_i * type_i * nrho_tot = 70`, the block of the type pair `(0, 1)`, not at
the offset `(t * ntypes + t) * nrho_tot = 210` of the diagonal entry `(1, 1)`; it stores
`fp[1] = 1` (entry `79`), where the diagonal block (entry `219`) gives `0`. -/
theorem eam_embedding_block_mixed_types :
    eamEmbedBase exBuild2 exAtom2 exEam2 1 = 70 ∧
    (exAtom2.type 1 * exAtom2.ntypes + exAtom2.type 1) * exEam2.nrho_tot = 210 ∧
    (computeForceEam exBuild2 exParam exAtom2 exNeighbor2 exStats exEam2 exSqrt2
      (fun _ => 0)).2.2.fp 1 = 1 ∧
    specEamEmbed exBuild2 exParam exAtom2 exNeighbor2 exEam2 exSqrt2 1 = 0 := by
  refine ⟨?_, ?_, exEam2_fp.2, ?_⟩
  · norm_num [eamEmbedBase, exBuild2, exAtom2, exEam2]
  · norm_num [exAtom2, exEam2]
  · norm_num [specEamEmbed, eamDensity, exNeighbor2, forUpTo, eamDensityStep, atom_x, atom_y,
      atom_z, exBuild2, eamCutforcesq, pairSplineIndex, exSqrt2, exEam2, cTruncInt, INT_MIN, INT_MAX,
      eamPairBase, embedSplineIndex, MIN, MAX, exAtom2]

/-! ## What the kernels write -/

/-- Iteration `n` of pass 2 writes the force slot of particle `n` only. -/
theorem eamPass2_step_frame (b : Build) (param : Parameter) (neighbor : Neighbor) (eam : Eam)
    (sqrt : ℚ → ℚ) (fp : Nat → ℚ) (n : Nat) (st : Atom × Stats) (j : Nat) (hj : j ≠ n) :
    (eamPass2 b param neighbor eam sqrt fp (n + 1) st).1.fx j =
      (eamPass2 b param neighbor eam sqrt fp n st).1.fx j ∧
    (eamPass2 b param neighbor eam sqrt fp (n + 1) st).1.fy j =
      (eamPass2 b param neighbor eam sqrt fp n st).1.fy j ∧
    (eamPass2 b param neighbor eam sqrt fp (n + 1) st).1.fz j =
      (eamPass2 b param neighbor eam sqrt fp n st).1.fz j := by
  simp only [eamPass2, forUpTo, Function.update_noteq hj, and_self]

/-- Iteration `n` of the loop over the owned particles of the vector kernel writes
the force slot of particle `n` only. -/
theorem ljForceLoop_step_frame (b : Build) (param : Parameter) (neighbor : Neighbor)
    (fuel n : Nat) (atom a₀ a₁ : Atom)
    (h₀ : ljForceLoop b param neighbor fuel n atom = some a₀)
    (h₁ : ljForceLoop b param neighbor fuel (n + 1) atom = some a₁) (j : Nat) (hj : j ≠ n) :
    a₁.fx j = a₀.fx j ∧ a₁.fy j = a₀.fy j ∧ a₁.fz j = a₀.fz j := by
  simp only [ljForceLoop, h₀] at h₁
  cases hl : ljLanes b param a₀ neighbor fuel n with
  | none => simp [hl] at h₁
  | some acc =>
    simp only [hl, Option.some.injEq] at h₁
    subst h₁
    simp only [Function.update_noteq hj, and_self]

/-- C13, as stated, fails: on `exAtom` (`Nmax = 4`) with the record `exEam`
(`nmax = 0`) `computeForceEam` regrows its scratch array and, besides `fp` and the
counters, writes the capacity `eam.nmax`, which goes from `0` to `4`. -/
theorem kernel_writes_counterexample :
    exEam.nmax = 0 ∧
    (computeForceEam exBuild exParam exAtom exNeighbor exStats exEam exSqrt
      (fun _ => 0)).2.2.nmax = 4 := by
  constructor
  · rfl
  · simp [computeForceEam, exEam, exAtom]

/-- C13, as amended.  Both kernels change force components only at the owned indices
`i < Nlocal`, iteration `i` of their loops writing the slot of particle `i` only; the
force entries at indices `≥ Nlocal` and every other field of the particle store
(positions, types, `Nlocal`, `Nghost`, `border_map`, the per-type tables) are unchanged,
and the neighbour record is only read.  `computeForceEam` additionally writes its `fp`
scratch array, the capacity `eam.nmax` of that array when it regrows it, and the
statistics counters; the spline tables and their dimensions are unchanged. -/
theorem kernel_writes (b : Build) (param : Parameter) (atom : Atom) (neighbor : Neighbor)
    (stats : Stats) (eam : Eam) (sqrt : ℚ → ℚ) (fresh : Nat → ℚ) :
    ((computeForceEam b param atom neighbor stats eam sqrt fresh).1 =
        { atom with
          fx := (computeForceEam b param atom neighbor stats eam sqrt fresh).1.fx
          fy := (computeForceEam b param atom neighbor stats eam sqrt fresh).1.fy
          fz := (computeForceEam b param atom neighbor stats eam sqrt fresh).1.fz } ∧
      (∀ j, atom.Nlocal ≤ j →
        (computeForceEam b param atom neighbor stats eam sqrt fresh).1.fx j = atom.fx j ∧
        (computeForceEam b param atom neighbor stats eam sqrt fresh).1.fy j = atom.fy j ∧
        (computeForceEam b param atom neighbor stats eam sqrt fresh).1.fz j = atom.fz j) ∧
      (computeForceEam b param atom neighbor stats eam sqrt fresh).2.2 =
        { eam with
          nmax := if eam.nmax < atom.Nmax then atom.Nmax else eam.nmax
          fp := (computeForceEam b param atom neighbor stats eam sqrt fresh).2.2.fp } ∧
      (∀ (fp : Nat → ℚ) (n : Nat) (st : Atom × Stats) (j : Nat), j ≠ n →
        (eamPass2 b param neighbor eam sqrt fp (n + 1) st).1.fx j =
          (eamPass2 b param neighbor eam sqrt fp n st).1.fx j ∧
        (eamPass2 b param neighbor eam sqrt fp (n + 1) st).1.fy j =
          (eamPass2 b param neighbor eam sqrt fp n st).1.fy j ∧
        (eamPass2 b param neighbor eam sqrt fp (n + 1) st).1.fz j =
          (eamPass2 b param neighbor eam sqrt fp n st).1.fz j)) ∧
    (∀ fuel : Nat, 1 ≤ b.VECTOR_WIDTH →
      (∀ n, n < atom.Nlocal → neighbor.numneigh n ≤ fuel) →
      ∃ a, computeForceLJFullNeigh_simd b param atom neighbor fuel = some a ∧
        a = { atom with fx := a.fx, fy := a.fy, fz := a.fz } ∧
        (∀ j, atom.Nlocal ≤ j →
          a.fx j = atom.fx j ∧ a.fy j = atom.fy j ∧ a.fz j = atom.fz j)) ∧
    (∀ (fuel n : Nat) (start a₀ a₁ : Atom),
      ljForceLoop b param neighbor fuel n start = some a₀ →
      ljForceLoop b param neighbor fuel (n + 1) start = some a₁ →
      ∀ j, j ≠ n → a₁.fx j = a₀.fx j ∧ a₁.fy j = a₀.fy j ∧ a₁.fz j = a₀.fz j) := by
  refine ⟨⟨?_, ?_, ?_, ?_⟩, ?_, ?_⟩
  · rw [(computeForceEam_eq b param atom neighbor stats eam sqrt fresh).1]
  · intro j hj
    have hlt : ¬ j < atom.Nlocal := by omega
    rw [(computeForceEam_eq b param atom neighbor stats eam sqrt fresh).1]
    simp only [hlt, if_false, and_self]
  · simp only [computeForceEam]
    by_cases h : eam.nmax < atom.Nmax <;> simp only [h, if_true, if_false]
  · intro fp n st j hj
    exact eamPass2_step_frame b param neighbor eam sqrt fp n st j hj
  · intro fuel hW hfuel
    refine ⟨_, lj_kernel_eq b param atom neighbor fuel hW hfuel, rfl, ?_⟩
    intro j hj
    have hlt : ¬ j < atom.Nlocal := by omega
    simp only [hlt, if_false, and_self]
  · intro fuel n start a₀ a₁ h₀ h₁ j hj
    exact ljForceLoop_step_frame b param neighbor fuel n start a₀ a₁ h₀ h₁ j hj

/-- Instance of `kernel_writes`: the vector kernel on `exAtom`, whose ghost slot is
index 2. -/
theorem kernel_writes_witness :
    ∃ a, computeForceLJFullNeigh_simd exBuild exParam exAtom exNeighbor 2 = some a ∧
      a = { exAtom with fx := a.fx, fy := a.fy, fz := a.fz } ∧
      (∀ j, exAtom.Nlocal ≤ j →
        a.fx j = exAtom.fx j ∧ a.fy j = exAtom.fy j ∧ a.fz j = exAtom.fz j) :=
  (kernel_writes exBuild exParam exAtom exNeighbor exStats exEam exSqrt (fun _ => 0)).2.1 2
    (by decide)
    (by
      intro n _
      simp only [exNeighbor]
      split_ifs <;> omega)

/-! ## Equal and opposite pair forces -/

theorem ljPairTerm_eq_pairForce (b : Build) (param : Parameter) (atom : Atom)
    (neighbor : Neighbor) (i k : Nat) :
    ljPairTerm b param atom neighbor i k =
      ljPairForce b param atom i (neighbor.neighbors (i * neighbor.maxneighs + k)) := rfl

theorem eamPairTerm_eq_pairForce (b : Build) (param : Parameter) (atom : Atom)
    (neighbor : Neighbor) (eam : Eam) (sqrt : ℚ → ℚ) (fp : Nat → ℚ) (i k : Nat) :
    eamPairTerm b param atom neighbor eam sqrt fp i k =
      eamPairForce b param atom eam sqrt fp i
        (neighbor.neighbors (i * neighbor.maxneighs + k)) := rfl

/-- The Lennard-Jones contribution on `a` because of `j` is the negation of the one
on `j` because of `a`. -/
theorem ljPairForce_antisymm (b : Build) (param : Parameter) (atom : Atom) (a j : Nat) :
    (ljPairForce b param atom a j).1 = -(ljPairForce b param atom j a).1 ∧
    (ljPairForce b param atom a j).2.1 = -(ljPairForce b param atom j a).2.1 ∧
    (ljPairForce b param atom a j).2.2 = -(ljPairForce b param atom j a).2.2 := by
  have hx : atom_x b atom j - atom_x b atom a = -(atom_x b atom a - atom_x b atom j) := by ring
  have hy : atom_y b atom j - atom_y b atom a = -(atom_y b atom a - atom_y b atom j) := by ring
  have hz : atom_z b atom j - atom_z b atom a = -(atom_z b atom a - atom_z b atom j) := by ring
  simp only [ljPairForce, hx, hy, hz, neg_mul_neg]
  generalize atom_x b atom a - atom_x b atom j = dx
  generalize atom_y b atom a - atom_y b atom j = dy
  generalize atom_z b atom a - atom_z b atom j = dz
  split_ifs
  · refine ⟨?_, ?_, ?_⟩ <;> simp only <;> ring
  · simp

/-- With symmetric tables the pair coefficient of pass 2 is the same for `(a, j)` and
`(j, a)`, at a separation whose table position is in the range of `int`. -/
theorem eamFpair_symm (b : Build) (param : Parameter) (atom : Atom) (eam : Eam)
    (fp : Nat → ℚ) (a j : Nat) (r : ℚ) (hsym : eamPairSymmetric b param atom eam a j)
    (hnr : 2 ≤ eam.nr) (hrdr : 0 ≤ eam.rdr) (hr : 0 ≤ r)
    (hrange : r * eam.rdr + 1 < 2147483648) :
    eamFpair b atom eam fp a j r = eamFpair b atom eam fp j a r := by
  obtain ⟨hm, h1⟩ := pairSplineIndex_fst eam r hr hrdr hrange
  have hlo : 1 ≤ (pairSplineIndex eam r).1 := by
    rw [hm]
    exact le_min h1 (by omega)
  have hhi : (pairSplineIndex eam r).1 ≤ eam.nr - 1 := by
    rw [hm]
    exact min_le_right _ _
  have hT := fun c h0 h6 => hsym.2 (pairSplineIndex eam r).1 c hlo hhi h0 h6
  have e0 := hT 0 (by norm_num) (by norm_num)
  have e1 := hT 1 (by norm_num) (by norm_num)
  have e2 := hT 2 (by norm_num) (by norm_num)
  have e3 := hT 3 (by norm_num) (by norm_num)
  have e4 := hT 4 (by norm_num) (by norm_num)
  have e5 := hT 5 (by norm_num) (by norm_num)
  have e6 := hT 6 (by norm_num) (by norm_num)
  simp only [eamFpair, e0.1, e0.2, e1.1, e1.2, e2.1, e2.2, e3.2, e4.2, e5.2, e6.2]
  ring

/-- With symmetric cutoff and tables the contribution of pass 2 on `a` because of `j`
is the negation of the one on `j` because of `a`, when the separation of a pair within
the cutoff has a table position in the range of `int`. -/
theorem eamPairForce_antisymm (b : Build) (param : Parameter) (atom : Atom) (eam : Eam)
    (sqrt : ℚ → ℚ) (fp : Nat → ℚ) (a j : Nat)
    (hsym : eamPairSymmetric b param atom eam a j)
    (hnr : 2 ≤ eam.nr) (hrdr : 0 ≤ eam.rdr) (hr : 0 ≤ sqrt (sqDist b atom a j))
    (hrange : sqrt (sqDist b atom a j) * eam.rdr + 1 < 2147483648) :
    (eamPairForce b param atom eam sqrt fp a j).1 =
      -(eamPairForce b param atom eam sqrt fp j a).1 ∧
    (eamPairForce b param atom eam sqrt fp a j).2.1 =
      -(eamPairForce b param atom eam sqrt fp j a).2.1 ∧
    (eamPairForce b param atom eam sqrt fp a j).2.2 =
      -(eamPairForce b param atom eam sqrt fp j a).2.2 := by
  have hx : atom_x b atom j - atom_x b atom a = -(atom_x b atom a - atom_x b atom j) := by ring
  have hy : atom_y b atom j - atom_y b atom a = -(atom_y b atom a - atom_y b atom j) := by ring
  have hz : atom_z b atom j - atom_z b atom a = -(atom_z b atom a - atom_z b atom j) := by ring
  have hF := eamFpair_symm b param atom eam fp a j _ hsym hnr hrdr hr hrange
  simp only [sqDist] at hF
  simp only [eamPairForce, hx, hy, hz, neg_mul_neg, ← hsym.1, ← hF]
  split_ifs
  · refine ⟨?_, ?_, ?_⟩ <;> simp only <;> ring
  · simp

/-- A list without repetition whose entries are below `N` sums a function of its
entries as the sum over all indices below `N` restricted to the listed ones. -/
theorem sum_list_eq_sum_listed (N n : Nat) (nb : Nat → Nat) (f : Nat → ℚ)
    (hown : ∀ k, k < n → nb k < N)
    (hnodup : ∀ k k', k < n → k' < n → nb k = nb k' → k = k') :
    ∑ k in Finset.range n, f (nb k) =
      ∑ j in Finset.range N, if j ∈ (Finset.range n).image nb then f j else 0 := by
  have hsub : (Finset.range n).image nb ⊆ Finset.range N := by
    intro j hj
    obtain ⟨k, hk, rfl⟩ := Finset.mem_image.mp hj
    exact Finset.mem_range.mpr (hown k (Finset.mem_range.mp hk))
  rw [Finset.sum_ite_mem, Finset.inter_eq_right.mpr hsub, Finset.sum_image]
  intro k hk k' hk' h
  exact hnodup k k' (Finset.mem_range.mp hk) (Finset.mem_range.mp hk') h

/-- Double sum of an antisymmetric array over a square index range. -/
theorem sum_antisymm_zero (N : Nat) (G : Nat → Nat → ℚ)
    (hG : ∀ i j, i < N → j < N → G i j = -G j i) :
    ∑ i in Finset.range N, ∑ j in Finset.range N, G i j = 0 := by
  have h1 : ∑ i in Finset.range N, ∑ j in Finset.range N, G i j =
      ∑ i in Finset.range N, ∑ j in Finset.range N, -G j i :=
    Finset.sum_congr rfl (fun i hi => Finset.sum_congr rfl (fun j hj =>
      hG i j (Finset.mem_range.mp hi) (Finset.mem_range.mp hj)))
  have h2 : ∑ i in Finset.range N, ∑ j in Finset.range N, -G j i =
      -∑ i in Finset.range N, ∑ j in Finset.range N, G i j := by
    rw [Finset.sum_comm]
    simp only [Finset.sum_neg_distrib]
  linarith

/-- Forces that are equal and opposite on every listed pair sum to zero over symmetric
lists that name no particle twice and name owned particles only. -/
theorem sum_pairs_zero (N : Nat) (neighbor : Neighbor) (T : Nat → Nat → ℚ)
    (hown : ∀ i k, i < N → k < neighbor.numneigh i →
      neighbor.neighbors (i * neighbor.maxneighs + k) < N)
    (hnodup : ∀ i k k', i < N → k < neighbor.numneigh i → k' < neighbor.numneigh i →
      neighbor.neighbors (i * neighbor.maxneighs + k) =
        neighbor.neighbors (i * neighbor.maxneighs + k') → k = k')
    (hsymm : ∀ a j, a < N → j < N → (listed neighbor a j ↔ listed neighbor j a))
    (hanti : ∀ a j, a < N → j < N → listed neighbor a j → T a j = -T j a) :
    ∑ i in Finset.range N, ∑ k in Finset.range (neighbor.numneigh i),
      T i (neighbor.neighbors (i * neighbor.maxneighs + k)) = 0 := by
  have hmem : ∀ i j, j ∈ (Finset.range (neighbor.numneigh i)).image
      (fun k => neighbor.neighbors (i * neighbor.maxneighs + k)) ↔ listed neighbor i j := by
    intro i j
    simp only [Finset.mem_image, Finset.mem_range, listed]
  have hrow : ∀ i ∈ Finset.range N, ∑ k in Finset.range (neighbor.numneigh i),
      T i (neighbor.neighbors (i * neighbor.maxneighs + k)) =
      ∑ j in Finset.range N, if listed neighbor i j then T i j else 0 := by
    intro i hi
    have hi' := Finset.mem_range.mp hi
    rw [sum_list_eq_sum_listed N (neighbor.numneigh i)
      (fun k => neighbor.neighbors (i * neighbor.maxneighs + k)) (T i)
      (fun k hk => hown i k hi' hk) (fun k k' hk hk' h => hnodup i k k' hi' hk hk' h)]
    exact Finset.sum_congr rfl (fun j _ => by simp only [hmem])
  rw [Finset.sum_congr rfl hrow]
  apply sum_antisymm_zero N (fun i j => if listed neighbor i j then T i j else 0)
  intro i j hi hj
  by_cases h : listed neighbor i j
  · have h' : listed neighbor j i := (hsymm i j hi hj).mp h
    simp only [h, h', if_true]
    exact hanti i j hi hj h
  · have h' : ¬ listed neighbor j i := fun hc => h ((hsymm i j hi hj).mpr hc)
    simp only [h, h', if_false, neg_zero]

/-- C15, as stated, fails on its last sentence: for the two owned particles of
`exAtom2` (no ghost) with the lists of `exNeighborDup`, which are symmetric in the sense
that `b` is in the list of `a` iff `a` is in the list of `b` but name particle 1 twice
in the list of particle 0, `computeForceLJFullNeigh_simd` stores `fx[0] = -48` and
`fx[1] = 24`: the forces sum to `-24`, not to zero. -/
theorem pair_forces_sum_counterexample :
    exAtom2.Nghost = 0 ∧
    (∀ i, i < exAtom2.Nlocal → ∀ k, k < exNeighborDup.numneigh i →
      exNeighborDup.neighbors (i * exNeighborDup.maxneighs + k) < exAtom2.Nlocal) ∧
    (∀ a, a < exAtom2.Nlocal → ∀ j, j < exAtom2.Nlocal →
      (listed exNeighborDup a j ↔ listed exNeighborDup j a)) ∧
    ∃ atom', computeForceLJFullNeigh_simd exBuild exParam exAtom2 exNeighborDup 2 = some atom' ∧
      atom'.fx 0 = -48 ∧ atom'.fx 1 = 24 ∧
      ∑ i in Finset.range exAtom2.Nlocal, atom'.fx i = -24 := by
  refine ⟨rfl, by decide, by decide, ?_⟩
  have hfuel : ∀ i, i < exAtom2.Nlocal → exNeighborDup.numneigh i ≤ 2 := by
    intro i _
    simp only [exNeighborDup]
    split_ifs <;> omega
  have h0 : ljScalarLoop exBuild exParam exAtom2 exNeighborDup 0 = (-48, 0, 0) := by
    norm_num [ljScalarLoop, exNeighborDup, forUpTo, atom_x, atom_y, atom_z, exBuild, exAtom2,
      exParam]
  have h1 : ljScalarLoop exBuild exParam exAtom2 exNeighborDup 1 = (24, 0, 0) := by
    norm_num [ljScalarLoop, exNeighborDup, forUpTo, atom_x, atom_y, atom_z, exBuild, exAtom2,
      exParam]
  have hN : exAtom2.Nlocal = 2 := rfl
  refine ⟨_, lj_kernel_eq exBuild exParam exAtom2 exNeighborDup 2 (by decide) hfuel, ?_, ?_, ?_⟩
  · simp only [hN, Nat.ofNat_pos, if_true, h0]
  · simp only [hN, Nat.one_lt_ofNat, if_true, h1]
  · simp only [hN, Finset.sum_range_succ, Finset.sum_range_zero, Nat.ofNat_pos,
      Nat.one_lt_ofNat, if_true, h0, h1]
    norm_num

/-- C15, as amended.  For every two particles `a` and `j` at distinct positions whose
squared separation is below the cutoff, the contribution that
`computeForceLJFullNeigh_simd` adds to the force on `a` because of `j` is, component by
component, the negation of the one it adds to the force on `j` because of `a`; the same
holds for pass 2 of `computeForceEam` when the cutoff and the spline tables are symmetric
in the two types, for tables of `nr ≥ 2` bins with `rdr ≥ 0` and a separation
`r = sqrt rsq > 0` whose table position `r * rdr + 1` is below `2 ^ 31`.  Hence, for a
system without ghosts whose full neighbour lists are symmetric (`b` in the list of `a`
iff `a` in the list of `b`), name no neighbour twice and name only particles at a
position distinct from the owner's, the forces of all owned particles sum to zero after
either kernel. -/
theorem pair_forces_equal_opposite (b : Build) (param : Parameter) (atom : Atom)
    (neighbor : Neighbor) (stats : Stats) (eam : Eam) (sqrt : ℚ → ℚ) (fresh : Nat → ℚ) :
    (∀ a j : Nat, sqDist b atom a j ≠ 0 →
      sqDist b atom a j < param.cutforce * param.cutforce →
      (∀ k, neighbor.neighbors (a * neighbor.maxneighs + k) = j →
        ljPairTerm b param atom neighbor a k = ljPairForce b param atom a j) ∧
      (ljPairForce b param atom a j).1 = -(ljPairForce b param atom j a).1 ∧
      (ljPairForce b param atom a j).2.1 = -(ljPairForce b param atom j a).2.1 ∧
      (ljPairForce b param atom a j).2.2 = -(ljPairForce b param atom j a).2.2) ∧
    (∀ (fp : Nat → ℚ) (a j : Nat), sqDist b atom a j ≠ 0 →
      sqDist b atom a j < eamCutforcesq b param atom a j →
      eamPairSymmetric b param atom eam a j → 2 ≤ eam.nr → 0 ≤ eam.rdr →
      0 < sqrt (sqDist b atom a j) →
      sqrt (sqDist b atom a j) * eam.rdr + 1 < 2147483648 →
      (∀ k, neighbor.neighbors (a * neighbor.maxneighs + k) = j →
        eamPairTerm b param atom neighbor eam sqrt fp a k =
          eamPairForce b param atom eam sqrt fp a j) ∧
      (eamPairForce b param atom eam sqrt fp a j).1 =
        -(eamPairForce b param atom eam sqrt fp j a).1 ∧
      (eamPairForce b param atom eam sqrt fp a j).2.1 =
        -(eamPairForce b param atom eam sqrt fp j a).2.1 ∧
      (eamPairForce b param atom eam sqrt fp a j).2.2 =
        -(eamPairForce b param atom eam sqrt fp j a).2.2) ∧
    (atom.Nghost = 0 →
      (∀ i, i < atom.Nlocal → ∀ k, k < neighbor.numneigh i →
        neighbor.neighbors (i * neighbor.maxneighs + k) < atom.Nlocal + atom.Nghost) →
      (∀ i, i < atom.Nlocal → ∀ k, k < neighbor.numneigh i → ∀ k', k' < neighbor.numneigh i →
        neighbor.neighbors (i * neighbor.maxneighs + k) =
          neighbor.neighbors (i * neighbor.maxneighs + k') → k = k') →
      (∀ a, a < atom.Nlocal → ∀ j, j < atom.Nlocal →
        (listed neighbor a j ↔ listed neighbor j a)) →
      (∀ a, a < atom.Nlocal → ∀ j, j < atom.Nlocal → listed neighbor a j →
        sqDist b atom a j ≠ 0) →
      (∀ fuel : Nat, 1 ≤ b.VECTOR_WIDTH →
        (∀ n, n < atom.Nlocal → neighbor.numneigh n ≤ fuel) →
        ∃ atom', computeForceLJFullNeigh_simd b param atom neighbor fuel = some atom' ∧
          ∑ i in Finset.range atom.Nlocal, atom'.fx i = 0 ∧
          ∑ i in Finset.range atom.Nlocal, atom'.fy i = 0 ∧
          ∑ i in Finset.range atom.Nlocal, atom'.fz i = 0) ∧
      (2 ≤ eam.nr → 0 ≤ eam.rdr →
        (∀ a, a < atom.Nlocal → ∀ j, j < atom.Nlocal → listed neighbor a j →
          eamPairSymmetric b param atom eam a j ∧ 0 < sqrt (sqDist b atom a j) ∧
          sqrt (sqDist b atom a j) * eam.rdr + 1 < 2147483648) →
        ∑ i in Finset.range atom.Nlocal,
          (computeForceEam b param atom neighbor stats eam sqrt fresh).1.fx i = 0 ∧
        ∑ i in Finset.range atom.Nlocal,
          (computeForceEam b param atom neighbor stats eam sqrt fresh).1.fy i = 0 ∧
        ∑ i in Finset.range atom.Nlocal,
          (computeForceEam b param atom neighbor stats eam sqrt fresh).1.fz i = 0)) := by
  refine ⟨fun a j _ _ => ⟨?_, ljPairForce_antisymm b param atom a j⟩, ?_, ?_⟩
  · intro k hk
    rw [ljPairTerm_eq_pairForce, hk]
  · intro fp a j _ _ hsym hnr hrdr hpos hrange
    refine ⟨?_, eamPairForce_antisymm b param atom eam sqrt fp a j hsym hnr hrdr
      (le_of_lt hpos) hrange⟩
    intro k hk
    rw [eamPairTerm_eq_pairForce, hk]
  · intro hgh hwf hnodup hsymm _
    have hown : ∀ i k, i < atom.Nlocal → k < neighbor.numneigh i →
        neighbor.neighbors (i * neighbor.maxneighs + k) < atom.Nlocal := by
      intro i k hi hk
      have := hwf i hi k hk
      omega
    have hnd : ∀ i k k', i < atom.Nlocal → k < neighbor.numneigh i →
        k' < neighbor.numneigh i →
        neighbor.neighbors (i * neighbor.maxneighs + k) =
          neighbor.neighbors (i * neighbor.maxneighs + k') → k = k' :=
      fun i k k' hi hk hk' h => hnodup i hi k hk k' hk' h
    have hsy : ∀ a j, a < atom.Nlocal → j < atom.Nlocal →
        (listed neighbor a j ↔ listed neighbor j a) :=
      fun a j ha hj => hsymm a ha j hj
    have hzero := fun (T : Nat → Nat → ℚ)
        (hanti : ∀ a j, a < atom.Nlocal → j < atom.Nlocal → listed neighbor a j →
          T a j = -T j a) =>
      sum_pairs_zero atom.Nlocal neighbor T hown hnd hsy hanti
    constructor
    · intro fuel hW hfuel
      refine ⟨_, lj_kernel_eq b param atom neighbor fuel hW hfuel, ?_, ?_, ?_⟩
      · rw [← hzero (fun a j => (ljPairForce b param atom a j).1)
          (fun a j _ _ _ => (ljPairForce_antisymm b param atom a j).1)]
        refine Finset.sum_congr rfl (fun i hi => ?_)
        simp only [Finset.mem_range.mp hi, if_true, ljScalarLoop_eq_sum,
          ljPairTerm_eq_pairForce]
      · rw [← hzero (fun a j => (ljPairForce b param atom a j).2.1)
          (fun a j _ _ _ => (ljPairForce_antisymm b param atom a j).2.1)]
        refine Finset.sum_congr rfl (fun i hi => ?_)
        simp only [Finset.mem_range.mp hi, if_true, ljScalarLoop_eq_sum,
          ljPairTerm_eq_pairForce]
      · rw [← hzero (fun a j => (ljPairForce b param atom a j).2.2)
          (fun a j _ _ _ => (ljPairForce_antisymm b param atom a j).2.2)]
        refine Finset.sum_congr rfl (fun i hi => ?_)
        simp only [Finset.mem_range.mp hi, if_true, ljScalarLoop_eq_sum,
          ljPairTerm_eq_pairForce]
    · intro hnr hrdr hsym
      have hanti := fun a j (ha : a < atom.Nlocal) (hj : j < atom.Nlocal)
          (hl : listed neighbor a j) =>
        eamPairForce_antisymm b param atom eam sqrt
          (computeForceEam b param atom neighbor stats eam sqrt fresh).2.2.fp a j
          (hsym a ha j hj hl).1 hnr hrdr (le_of_lt (hsym a ha j hj hl).2.1)
          (hsym a ha j hj hl).2.2
      rw [(computeForceEam_eq b param atom neighbor stats eam sqrt fresh).1]
      refine ⟨?_, ?_, ?_⟩
      · rw [← hzero (fun a j => (eamPairForce b param atom eam sqrt
            (computeForceEam b param atom neighbor stats eam sqrt fresh).2.2.fp a j).1)
          (fun a j ha hj hl => (hanti a j ha hj hl).1)]
        refine Finset.sum_congr rfl (fun i hi => ?_)
        simp only [Finset.mem_range.mp hi, if_true, eamForceAcc_eq_sum,
          eamPairTerm_eq_pairForce]
      · rw [← hzero (fun a j => (eamPairForce b param atom eam sqrt
            (computeForceEam b param atom neighbor stats eam sqrt fresh).2.2.fp a j).2.1)
          (fun a j ha hj hl => (hanti a j ha hj hl).2.1)]
        refine Finset.sum_congr rfl (fun i hi => ?_)
        simp only [Finset.mem_range.mp hi, if_true, eamForceAcc_eq_sum,
          eamPairTerm_eq_pairForce]
      · rw [← hzero (fun a j => (eamPairForce b param atom eam sqrt
            (computeForceEam b param atom neighbor stats eam sqrt fresh).2.2.fp a j).2.2)
          (fun a j ha hj hl => (hanti a j ha hj hl).2.2)]
        refine Finset.sum_congr rfl (fun i hi => ?_)
        simp only [Finset.mem_range.mp hi, if_true, eamForceAcc_eq_sum,
          eamPairTerm_eq_pairForce]

/-- Instance of `pair_forces_equal_opposite`: the two particles of `exAtom2`, at distance
`1`, each listing the other once (`exNeighbor2`), in the one-type build with the tables of
`exEam`. -/
theorem pair_forces_equal_opposite_witness :
    (∃ atom', computeForceLJFullNeigh_simd exBuild exParam exAtom2 exNeighbor2 2 = some atom' ∧
      ∑ i in Finset.range exAtom2.Nlocal, atom'.fx i = 0 ∧
      ∑ i in Finset.range exAtom2.Nlocal, atom'.fy i = 0 ∧
      ∑ i in Finset.range exAtom2.Nlocal, atom'.fz i = 0) ∧
    (∑ i in Finset.range exAtom2.Nlocal,
        (computeForceEam exBuild exParam exAtom2 exNeighbor2 exStats exEam exSqrt2
          (fun _ => 0)).1.fx i = 0 ∧
      ∑ i in Finset.range exAtom2.Nlocal,
        (computeForceEam exBuild exParam exAtom2 exNeighbor2 exStats exEam exSqrt2
          (fun _ => 0)).1.fy i = 0 ∧
      ∑ i in Finset.range exAtom2.Nlocal,
        (computeForceEam exBuild exParam exAtom2 exNeighbor2 exStats exEam exSqrt2
          (fun _ => 0)).1.fz i = 0) :=
  have hd : ∀ a, a < exAtom2.Nlocal → ∀ j, j < exAtom2.Nlocal → listed exNeighbor2 a j →
      sqDist exBuild exAtom2 a j = 1 := by
    intro a ha j hj hl
    have ha2 : a < 2 := ha
    have hj2 : j < 2 := hj
    interval_cases a <;> interval_cases j
    · exact absurd hl (by decide)
    · norm_num [sqDist, atom_x, atom_y, atom_z, exBuild, exAtom2]
    · norm_num [sqDist, atom_x, atom_y, atom_z, exBuild, exAtom2]
    · exact absurd hl (by decide)
  have h := (pair_forces_equal_opposite exBuild exParam exAtom2 exNeighbor2 exStats exEam
    exSqrt2 (fun _ => 0)).2.2 rfl (by decide) (by decide) (by decide)
    (fun a ha j hj hl => by rw [hd a ha j hj hl]; exact one_ne_zero)
  ⟨h.1 2 (by decide) (by decide),
   h.2 (by norm_num [exEam]) (by norm_num [exEam])
    (by
      intro a ha j hj hl
      rw [hd a ha j hj hl]
      refine ⟨?_, ?_, ?_⟩
      · simp [eamPairSymmetric, eamCutforcesq, eamPairBase, exBuild]
      · norm_num [exSqrt2]
      · norm_num [exSqrt2, exEam])⟩

end MDBench
